import Mathlib

/-!
Verification development for the hatchet query subsystem (v2 query engine,
compound query algebra, and the base query builder).

The definitions below are shallow embeddings of:
  * hatchet/query/query.py         (Query._add_node)
  * hatchet/query/compound.py      (CompoundQuery and subclasses)
  * hatchet/query/__init__.py      (operator monkey-patching)
  * hatchet/query/v2/engine.py     (QueryEngine: _init, _apply_impl,
                                    _find_matches_from_node, apply, _reset)

Graph nodes are modelled as natural numbers.  A graph supplies a children
relation, a full node list (the graph traversal), and a stable sort key
(the traversal order of a node).  The per-node attribute table (the pandas
DataFrame) is modelled as its index: either a plain node index or a
multi-index of (node, secondary-level) pairs; a predicate is a boolean
function of the row index.  Python exceptions are modelled by an error
type threaded through Except; recursion depth is modelled by fuel (the
distinguished error PyErr.fuelOut marks fuel exhaustion, which has no
Python counterpart).
-/

/-- Normalized pattern quantifier: "." (match exactly one node) or "*"
(match zero or more nodes).  These are the only quantifiers that appear
in a `query_pattern` after `Query._add_node` normalization. -/
inductive Quant where
  | dot : Quant
  | star : Quant
deriving DecidableEq, Repr

/-- Python exceptions (and the fuel sentinel) that the modelled code can
raise. -/
inductive PyErr where
  | fuelOut : PyErr
  | typeErr : PyErr
  | valueError : PyErr
  | indexError : PyErr
  | assertionError : PyErr
  | badNumberNaryQueryArgs : PyErr
  | multiIndexModeMismatch : PyErr
deriving DecidableEq, Repr

/-- A predicate over an attribute row.  A row is identified by its node
and (for multi-indexed data) a secondary index level; single-indexed rows
are evaluated with secondary level 0. -/
def Pred : Type := Nat → Nat → Bool

/-- The index of the pandas DataFrame holding the attribute data: either a
plain node index (one row per node) or a multi-index (one row per
(node, secondary-level) pair). -/
inductive DFrame where
  | single : List Nat → DFrame
  | multi : List (Nat × Nat) → DFrame
deriving DecidableEq, Repr

/-- The nodes appearing in the DataFrame index. -/
def DFrame.nodes : DFrame → List Nat
  | DFrame.single rows => rows
  | DFrame.multi rows => rows.map Prod.fst

/-- The graph collaborator: children relation, the full node collection
produced by `graph.traverse()`, and the stable per-node sort key used by
`traversal_order`. -/
structure HGraph where
  children : Nat → List Nat
  nodes : List Nat
  key : Nat → Nat

/-- `Query._add_node` quantifier argument: a Python int or str. -/
inductive PyQuant where
  | intq : Int → PyQuant
  | strq : String → PyQuant
deriving DecidableEq, Repr

/-- Model of `Query._add_node` (hatchet/query/query.py).  An integer
quantifier `n` appends `range(n)`-many `(".", predicate)` elements; `"+"`
appends `(".", predicate)` then `("*", predicate)`; otherwise the
quantifier must be exactly `"."` or `"*"` (assertion failure if not), and
that single element is appended. -/
def addNode (quantifier : PyQuant) (predicate : Pred)
    (query_pattern : List (Quant × Pred)) : Except PyErr (List (Quant × Pred)) :=
  match quantifier with
  | PyQuant.intq n =>
      Except.ok (query_pattern ++ List.replicate n.toNat (Quant.dot, predicate))
  | PyQuant.strq s =>
      if s = "+" then
        Except.ok (query_pattern ++ [(Quant.dot, predicate), (Quant.star, predicate)])
      else if s = "." then
        Except.ok (query_pattern ++ [(Quant.dot, predicate)])
      else if s = "*" then
        Except.ok (query_pattern ++ [(Quant.star, predicate)])
      else
        Except.error PyErr.assertionError

/-- Compound query operator tag. -/
inductive CompOp where
  | conj : CompOp
  | disj : CompOp
  | xdisj : CompOp
  | neg : CompOp
deriving DecidableEq, Repr

/-- A query value: a base `Query` (its normalized `query_pattern`) or a
`CompoundQuery` (operator tag and subquery list). -/
inductive QueryT where
  | pat : List (Quant × Pred) → QueryT
  | comp : CompOp → List QueryT → QueryT

/-- A positional argument to a `CompoundQuery` constructor: a query object
or a tuple (Python varargs allow passing one tuple that gets unpacked). -/
inductive PyArg where
  | q : QueryT → PyArg
  | tup : List PyArg → PyArg

/-- Model of `CompoundQuery.__init__` argument collection
(hatchet/query/compound.py).  With zero positional arguments the
subscript `queries[0]` raises IndexError; a sole tuple argument is
unpacked; each collected argument must be a query (a tuple nested inside
the argument list raises TypeError in the collection loop). -/
def collectSubqueries (args : List PyArg) : Except PyErr (List QueryT) :=
  match args with
  | [] => Except.error PyErr.indexError
  | _ =>
      let queries :=
        match args with
        | [PyArg.tup inner] => inner
        | _ => args
      queries.mapM (fun a =>
        match a with
        | PyArg.q qt => Except.ok qt
        | PyArg.tup _ => Except.error PyErr.typeErr)

/-- Model of `ConjunctionQuery.__init__`: collect subqueries, then require
at least 2 of them (`BadNumberNaryQueryArgs` otherwise). -/
def conjunctionInit (args : List PyArg) : Except PyErr (List QueryT) :=
  match collectSubqueries args with
  | Except.error e => Except.error e
  | Except.ok subs =>
      if subs.length < 2 then Except.error PyErr.badNumberNaryQueryArgs
      else Except.ok subs

/-- Model of `DisjunctionQuery.__init__`: collect subqueries, then require
at least 2 of them. -/
def disjunctionInit (args : List PyArg) : Except PyErr (List QueryT) :=
  match collectSubqueries args with
  | Except.error e => Except.error e
  | Except.ok subs =>
      if subs.length < 2 then Except.error PyErr.badNumberNaryQueryArgs
      else Except.ok subs

/-- Model of `ExclusiveDisjunctionQuery.__init__`: collect subqueries,
then require at least 2 of them. -/
def exclusiveDisjunctionInit (args : List PyArg) : Except PyErr (List QueryT) :=
  match collectSubqueries args with
  | Except.error e => Except.error e
  | Except.ok subs =>
      if subs.length < 2 then Except.error PyErr.badNumberNaryQueryArgs
      else Except.ok subs

/-- Model of `NegationQuery.__init__`: collect subqueries, then require
exactly 1 of them. -/
def negationInit (args : List PyArg) : Except PyErr (List QueryT) :=
  match collectSubqueries args with
  | Except.error e => Except.error e
  | Except.ok subs =>
      if subs.length ≠ 1 then Except.error PyErr.badNumberNaryQueryArgs
      else Except.ok subs

/-- Model of `ConjunctionQuery._apply_op_to_results`:
`set(subquery_results[0]).intersection(*subquery_results[1:])`. -/
def conjApplyOp (results : List (List Nat)) : Except PyErr (Finset Nat) :=
  match results with
  | [] => Except.error PyErr.indexError
  | r0 :: rest => Except.ok (rest.foldl (fun s r => s ∩ r.toFinset) r0.toFinset)

/-- Model of `DisjunctionQuery._apply_op_to_results`:
`set().union(*subquery_results)`. -/
def disjApplyOp (results : List (List Nat)) : Except PyErr (Finset Nat) :=
  Except.ok (results.foldl (fun s r => s ∪ r.toFinset) ∅)

/-- Model of `ExclusiveDisjunctionQuery._apply_op_to_results`: fold
`symmetric_difference` over the subquery results, starting from the empty
set. -/
def xdisjApplyOp (results : List (List Nat)) : Except PyErr (Finset Nat) :=
  Except.ok (results.foldl (fun s r => symmDiff s r.toFinset) ∅)

/-- Model of `NegationQuery._apply_op_to_results`:
`set(graph.traverse())` minus the single subquery's result nodes. -/
def negApplyOp (g : HGraph) (results : List (List Nat)) : Except PyErr (Finset Nat) :=
  match results with
  | [] => Except.error PyErr.indexError
  | r0 :: _ => Except.ok (g.nodes.toFinset \ r0.toFinset)

/-- Dispatch of `CompoundQuery._apply_op_to_results` on the operator tag;
the resulting set is returned to Python as `list(...)`. -/
def applyOp (op : CompOp) (results : List (List Nat)) (g : HGraph) :
    Except PyErr (List Nat) :=
  match op with
  | CompOp.conj =>
      match conjApplyOp results with
      | Except.error e => Except.error e
      | Except.ok s => Except.ok (s.sort (· ≤ ·))
  | CompOp.disj =>
      match disjApplyOp results with
      | Except.error e => Except.error e
      | Except.ok s => Except.ok (s.sort (· ≤ ·))
  | CompOp.xdisj =>
      match xdisjApplyOp results with
      | Except.error e => Except.error e
      | Except.ok s => Except.ok (s.sort (· ≤ ·))
  | CompOp.neg =>
      match negApplyOp g results with
      | Except.error e => Except.error e
      | Except.ok s => Except.ok (s.sort (· ≤ ·))

/-- Insertion by key into a key-sorted list (helper for the stable sort
used by `sorted(..., key=traversal_order)` and by pandas groupby, which
sorts its group keys). -/
def insertByKey (key : Nat → Nat) (x : Nat) : List Nat → List Nat
  | [] => [x]
  | y :: ys => if key x ≤ key y then x :: y :: ys else y :: insertByKey key x ys

/-- Sort a list of nodes by a key function. -/
def sortByKey (key : Nat → Nat) (l : List Nat) : List Nat :=
  l.foldr (insertByKey key) []

/-- The predicate-evaluation step of `_init`: every pattern position's
predicate evaluated over the whole attribute table in one pass, giving
one boolean column per position (pd.concat of the predicate outputs). -/
def predicateTable (pats : List (Quant × Pred)) (rows : List (Nat × Nat)) :
    List ((Nat × Nat) × List Bool) :=
  rows.map (fun r => (r, pats.map (fun qp => qp.2 r.1 r.2)))

/-- The groupby-aggregate step of `_init` for multi-indexed data: group
the predicate table's rows by node (pandas sorts the group keys) and
aggregate every boolean column with the mode ("any" or "all"). -/
def aggRows (pats : List (Quant × Pred)) (rows : List (Nat × Nat))
    (mode : String) : List (Nat × List Bool) :=
  (sortByKey (fun x => x) (rows.map Prod.fst).dedup).map (fun n =>
    (n, (List.range pats.length).map (fun i =>
      if mode = "any" then
        (((predicateTable pats rows).filter (fun row => row.1.1 = n)).map
          (fun row => row.2.getD i false)).any (fun b => b)
      else
        (((predicateTable pats rows).filter (fun row => row.1.1 = n)).map
          (fun row => row.2.getD i false)).all (fun b => b))))

/-- The final step of `_init`: for every pattern position, the rows of
the (aggregated) boolean table whose entry at that position is true
(`predicate_vals.index[predicate_vals[i]].tolist()`). -/
def candidatesOfTable (len : Nat) (table : List (Nat × List Bool)) :
    List (List Nat) :=
  (List.range len).map (fun i =>
    (table.filter (fun row => row.2.getD i false)).map Prod.fst)

/-- Model of `QueryEngine._init` (hatchet/query/v2/engine.py).  Validates
the multi-index mode against `_available_modes`, evaluates the predicate
table, and, for multi-indexed data, raises MultiIndexModeMismatch under
mode "off" and otherwise groups the rows by node and aggregates each
column with the mode ("any"/"all").  The result is the candidate list:
for each pattern position, the nodes whose (aggregated) column entry is
true.  An empty pattern makes pd.concat raise a ValueError (no objects
to concatenate). -/
def initEngine (pats : List (Quant × Pred)) (df : DFrame) (mode : String) :
    Except PyErr (List (List Nat)) :=
  if mode ∉ (["off", "any", "all"] : List String) then Except.error PyErr.valueError
  else if pats.isEmpty then Except.error PyErr.valueError
  else
    match df with
    | DFrame.single rows =>
        Except.ok (candidatesOfTable pats.length
          (rows.map (fun n => (n, pats.map (fun qp => qp.2 n 0)))))
    | DFrame.multi rows =>
        if mode = "off" then Except.error PyErr.multiIndexModeMismatch
        else Except.ok (candidatesOfTable pats.length (aggRows pats rows mode))

/-- A Python value stored in a match-result list or in the path cache:
either a bare Node (as in the `[(curr_node)]` cache writes, where the
parentheses do not make a tuple) or a tuple of nodes. -/
inductive PVal where
  | vnode : Nat → PVal
  | vtup : List Nat → PVal
deriving DecidableEq, Repr

/-- A result of `_find_matches_from_node`: Python `None` (no completion)
or a list of values. -/
abbrev SearchRes := Option (List PVal)

/-- The engine's `path_cache` dict, keyed by (node, pattern position). -/
abbrev PathCache := List ((Nat × Nat) × SearchRes)

/-- Dict lookup in the path cache (the most recent insertion wins). -/
def lookupCache (cache : PathCache) (k : Nat × Nat) : Option SearchRes :=
  match cache with
  | [] => none
  | (k2, v) :: rest => if k2 = k then some v else lookupCache rest k

/-- Dict insertion into the path cache. -/
def insertCache (cache : PathCache) (k : Nat × Nat) (v : SearchRes) : PathCache :=
  (k, v) :: cache

/-- Python `tuple(p)` applied to a stored value: a tuple is copied, a bare
Node is not iterable and raises TypeError. -/
def pyTuple : PVal → Except PyErr (List Nat)
  | PVal.vtup t => Except.ok t
  | PVal.vnode _ => Except.error PyErr.typeErr

/-- `tuple(p)` applied to each element of a result list in order. -/
def pyTuples : List PVal → Except PyErr (List (List Nat))
  | [] => Except.ok []
  | pv :: rest =>
      match pyTuple pv with
      | Except.error e => Except.error e
      | Except.ok t =>
          match pyTuples rest with
          | Except.error e => Except.error e
          | Except.ok ts => Except.ok (t :: ts)

/-- Adding one tuple to the `child_paths` set (deduplicating). -/
def addTup (acc : List (List Nat)) (t : List Nat) : List (List Nat) :=
  if t ∈ acc then acc else acc ++ [t]

/-- The child loop of `_find_matches_from_node`: recursively process each
child at pattern position `nexti`, skip children whose result is None, and
add every returned sub-match (cast with `tuple(...)`) to the accumulated
`child_paths` set.  The recursive search function is passed as `f`. -/
def childLoop (f : Nat → Nat → PathCache → Except PyErr (SearchRes × PathCache)) :
    List Nat → Nat → List (List Nat) → PathCache →
    Except PyErr (List (List Nat) × PathCache)
  | [], _, acc, cache => Except.ok (acc, cache)
  | c :: cs, nexti, acc, cache =>
      match f c nexti cache with
      | Except.error e => Except.error e
      | Except.ok (none, cache2) => childLoop f cs nexti acc cache2
      | Except.ok (some subpaths, cache2) =>
          match pyTuples subpaths with
          | Except.error e => Except.error e
          | Except.ok ts => childLoop f cs nexti (ts.foldl addTup acc) cache2

/-- The tail of `_find_matches_from_node` after `next_query_idx` has been
set: run the child loop, return (and cache) None if it produced nothing,
otherwise prepend the current node to every accumulated sub-match and
return (and cache) the result. -/
def runChildren (g : HGraph)
    (f : Nat → Nat → PathCache → Except PyErr (SearchRes × PathCache))
    (n i nexti : Nat) (cache : PathCache) : Except PyErr (SearchRes × PathCache) :=
  match childLoop f (g.children n) nexti [] cache with
  | Except.error e => Except.error e
  | Except.ok (child_paths, cache2) =>
      if child_paths = [] then
        Except.ok (none, insertCache cache2 (n, i) none)
      else
        let valid := child_paths.map (fun p => PVal.vtup (n :: p))
        Except.ok (some valid, insertCache cache2 (n, i) (some valid))

/-- Model of `QueryEngine._find_matches_from_node`, with recursion depth
bounded by fuel.  `pat` is the list of the pattern's quantifiers and
`cands i` the candidate set of position `i` (membership of a node in
`cands i` is the code's `curr_node in self.candidates[query_idx]`).
Note the two `[(curr_node)]` cache writes in the source: the parentheses
do not make a tuple, so the value cached there is a list holding the bare
node, while the value returned is a list holding a 1-tuple. -/
def findMatches (g : HGraph) (pat : List Quant) (cands : Nat → List Nat) :
    Nat → Nat → Nat → PathCache → Except PyErr (SearchRes × PathCache)
  | 0, _, _, _ => Except.error PyErr.fuelOut
  | fuel+1, n, i, cache =>
      match lookupCache cache (n, i) with
      | some v => Except.ok (v, cache)
      | none =>
          match pat.get? i with
          | none => Except.error PyErr.indexError
          | some Quant.dot =>
              if n ∉ cands i then
                Except.ok (none, insertCache cache (n, i) none)
              else if i = pat.length - 1 then
                Except.ok (some [PVal.vtup [n]],
                  insertCache cache (n, i) (some [PVal.vnode n]))
              else if i = pat.length - 2 ∧ pat.get? (i+1) = some Quant.star then
                Except.ok (some [PVal.vtup [n]],
                  insertCache cache (n, i) (some [PVal.vnode n]))
              else
                runChildren g (findMatches g pat cands fuel) n i (i+1) cache
          | some Quant.star =>
              if i < pat.length - 1 ∧ n ∈ cands (i+1) then
                findMatches g pat cands fuel n (i+1) cache
              else if n ∉ cands i then
                if i < pat.length - 1 then
                  Except.ok (none, insertCache cache (n, i) none)
                else
                  Except.ok (some [PVal.vtup []],
                    insertCache cache (n, i) (some [PVal.vtup []]))
              else if i = pat.length - 1 ∧ g.children n = [] then
                Except.ok (some [PVal.vtup [n]], cache)
              else
                runChildren g (findMatches g pat cands fuel) n i i cache

/-- Add every node of one match tuple to the result set (`matches.add`). -/
def addNodesOf (mset : List Nat) (t : List Nat) : List Nat :=
  t.foldl (fun acc node => if node ∈ acc then acc else acc ++ [node]) mset

/-- The inner loops of `_apply_impl`: for every value in a starting
match result, iterate over its nodes and add them to the result set.
Iterating a bare Node raises TypeError. -/
def collectMatches (mset : List Nat) : List PVal → Except PyErr (List Nat)
  | [] => Except.ok mset
  | PVal.vnode _ :: _ => Except.error PyErr.typeErr
  | PVal.vtup t :: rest => collectMatches (addNodesOf mset t) rest

/-- The starting-candidate sweep of `_apply_impl`, threading the result
set and the path cache. -/
def applyImplLoop (g : HGraph) (pat : List Quant) (cands : Nat → List Nat)
    (fuel : Nat) : List Nat → List Nat → PathCache →
    Except PyErr (List Nat × PathCache)
  | [], mset, cache => Except.ok (mset, cache)
  | s :: starts, mset, cache =>
      match findMatches g pat cands fuel s 0 cache with
      | Except.error e => Except.error e
      | Except.ok (none, cache2) => applyImplLoop g pat cands fuel starts mset cache2
      | Except.ok (some l, cache2) =>
          match collectMatches mset l with
          | Except.error e => Except.error e
          | Except.ok mset2 => applyImplLoop g pat cands fuel starts mset2 cache2

/-- Model of `QueryEngine._apply_impl`: sweep the position-0 candidates in
traversal order, search from each, and union the nodes of all completions
into the (duplicate-free) result. -/
def applyImpl (g : HGraph) (pat : List Quant) (candsList : List (List Nat))
    (fuel : Nat) : Except PyErr (List Nat × PathCache) :=
  match candsList with
  | [] => Except.error PyErr.indexError
  | c0 :: _ =>
      applyImplLoop g pat (fun i => candsList.getD i []) fuel
        (sortByKey g.key c0) [] []

/-- The engine's mutable state: `self.candidates` and `self.path_cache`. -/
structure EngineState where
  candidates : List (List Nat)
  path_cache : PathCache
deriving DecidableEq, Repr

/-- The subquery loop of `QueryEngine.apply` for compound queries: apply
each subquery in order (threading engine state) and collect the results. -/
def applySubs (f : EngineState → QueryT → Except PyErr (List Nat × EngineState)) :
    EngineState → List QueryT → Except PyErr (List (List Nat) × EngineState)
  | st, [] => Except.ok ([], st)
  | st, q :: qs =>
      match f st q with
      | Except.error e => Except.error e
      | Except.ok (r, st2) =>
          match applySubs f st2 qs with
          | Except.error e => Except.error e
          | Except.ok (rs, st3) => Except.ok (r :: rs, st3)

/-- Model of `QueryEngine.apply`.  For a base query: reset the engine
state, run `_init` (which rebuilds the candidates) and `_apply_impl`
(which rebuilds the path cache).  For a compound query: apply every
subquery recursively — the recursive call passes no `multi_index_mode`,
so subqueries always run with the default mode "off" — then combine the
per-subquery result lists with the compound operator. -/
def applyQ (g : HGraph) (df : DFrame) :
    Nat → EngineState → QueryT → String → Except PyErr (List Nat × EngineState)
  | 0, _, _, _ => Except.error PyErr.fuelOut
  | fuel+1, _st, QueryT.pat p, mode =>
      match initEngine p df mode with
      | Except.error e => Except.error e
      | Except.ok cands =>
          match applyImpl g (p.map Prod.fst) cands fuel with
          | Except.error e => Except.error e
          | Except.ok (r, cache) => Except.ok (r, EngineState.mk cands cache)
  | fuel+1, st, QueryT.comp op subs, _mode =>
      match applySubs (fun s q => applyQ g df fuel s q "off") st subs with
      | Except.error e => Except.error e
      | Except.ok (results, st2) =>
          match applyOp op results g with
          | Except.error e => Except.error e
          | Except.ok r => Except.ok (r, st2)

/-- Model of `combine_via_conjunction` (hatchet/query/__init__.py). -/
def combineViaConjunction (query0 query1 : QueryT) : Except PyErr QueryT :=
  match conjunctionInit [PyArg.q query0, PyArg.q query1] with
  | Except.error e => Except.error e
  | Except.ok subs => Except.ok (QueryT.comp CompOp.conj subs)

/-- Model of `combine_via_disjunction`. -/
def combineViaDisjunction (query0 query1 : QueryT) : Except PyErr QueryT :=
  match disjunctionInit [PyArg.q query0, PyArg.q query1] with
  | Except.error e => Except.error e
  | Except.ok subs => Except.ok (QueryT.comp CompOp.disj subs)

/-- Model of `combine_via_exclusive_disjunction`. -/
def combineViaExclusiveDisjunction (query0 query1 : QueryT) : Except PyErr QueryT :=
  match exclusiveDisjunctionInit [PyArg.q query0, PyArg.q query1] with
  | Except.error e => Except.error e
  | Except.ok subs => Except.ok (QueryT.comp CompOp.xdisj subs)

/-- Model of `negate_query`. -/
def negateQuery (query : QueryT) : Except PyErr QueryT :=
  match negationInit [PyArg.q query] with
  | Except.error e => Except.error e
  | Except.ok subs => Except.ok (QueryT.comp CompOp.neg subs)

/-- The special-method slots of the query types that Python operator
syntax dispatches to.  `a & b` calls the type slot for `__and__`, `a | b`
the slot for `__or__`, `a ^ b` the slot for `__xor__`, and the prefix
`~a` the slot for `__invert__`.  There is no Python operator that
dispatches to a method named `__not__` (the `not` keyword uses
`__bool__`). -/
structure QueryOps where
  andMethod : Option (QueryT → QueryT → Except PyErr QueryT)
  orMethod : Option (QueryT → QueryT → Except PyErr QueryT)
  xorMethod : Option (QueryT → QueryT → Except PyErr QueryT)
  invertMethod : Option (QueryT → Except PyErr QueryT)
  notMethod : Option (QueryT → Except PyErr QueryT)

/-- The monkey-patching block of hatchet/query/__init__.py: it assigns
`__and__`, `__or__`, `__xor__` and `__not__` on the query types, and
never assigns `__invert__`. -/
def queryOps : QueryOps :=
  { andMethod := some combineViaConjunction
    orMethod := some combineViaDisjunction
    xorMethod := some combineViaExclusiveDisjunction
    invertMethod := none
    notMethod := some negateQuery }

/-- Python evaluation of `a & b`: dispatch to the `__and__` slot
(TypeError when the slot is empty). -/
def pyAnd (a b : QueryT) : Except PyErr QueryT :=
  match queryOps.andMethod with
  | some f => f a b
  | none => Except.error PyErr.typeErr

/-- Python evaluation of `a | b`: dispatch to the `__or__` slot. -/
def pyOr (a b : QueryT) : Except PyErr QueryT :=
  match queryOps.orMethod with
  | some f => f a b
  | none => Except.error PyErr.typeErr

/-- Python evaluation of `a ^ b`: dispatch to the `__xor__` slot. -/
def pyXor (a b : QueryT) : Except PyErr QueryT :=
  match queryOps.xorMethod with
  | some f => f a b
  | none => Except.error PyErr.typeErr

/-- Python evaluation of the prefix `~a`: dispatch to the `__invert__`
slot (TypeError when the slot is empty). -/
def pyInvert (a : QueryT) : Except PyErr QueryT :=
  match queryOps.invertMethod with
  | some f => f a
  | none => Except.error PyErr.typeErr

/-- Fixture graph: a single node 0 with no children. -/
def wG : HGraph :=
  { children := fun _ => [], nodes := [0], key := fun n => n }

/-- Fixture graph: a diamond bottom, nodes 0 and 1 are both parents of
node 2 (a DAG, as hatchet graphs can share subtrees). -/
def wDag : HGraph :=
  { children := fun n => if n = 0 then [2] else if n = 1 then [2] else [],
    nodes := [0, 1, 2],
    key := fun n => n }

/-- Fixture predicate that holds on every row. -/
def wTrue : Pred := fun _ _ => true

/-- Fixture query: a one-element always-true pattern. -/
def wQ : QueryT := QueryT.pat [(Quant.dot, wTrue)]

/-- Whether every query on the leftmost leaf path of a query tree is a
nonempty base pattern (the first pattern the engine would evaluate). -/
def leftLeafOK : QueryT → Bool
  | QueryT.pat p => !p.isEmpty
  | QueryT.comp _ [] => false
  | QueryT.comp _ (q :: _) => leftLeafOK q

/-- Nesting depth of the leftmost leaf path of a query tree. -/
def leftDepth : QueryT → Nat
  | QueryT.pat _ => 1
  | QueryT.comp _ [] => 1
  | QueryT.comp _ (q :: _) => leftDepth q + 1

/-- Fixture query: one-position pattern matching nodes up to 1. -/
def pA : QueryT := QueryT.pat [(Quant.dot, fun n _ => n ≤ 1)]

/-- Fixture query: one-position pattern matching nodes at least 1. -/
def pB : QueryT := QueryT.pat [(Quant.dot, fun n _ => n ≥ 1)]

/-- Fixture predicate that holds exactly on rows with secondary index 1. -/
def wR1 : Pred := fun _ r => decide (r = 1)

/-- Fixture one-position pattern using `wR1`. -/
def wPats : List (Quant × Pred) := [(Quant.dot, wR1)]

/-- Fixture multi-index rows: node 0 has rows at levels 0 and 1, node 1 a
single row at level 1. -/
def wRows : List (Nat × Nat) := [(0, 0), (0, 1), (1, 1)]

/-- The nodes stored inside one result value. -/
def pvNodes : PVal → List Nat
  | PVal.vnode k => [k]
  | PVal.vtup t => t

/-- The connectivity constraint between a node and the rest of a chain:
the chain is empty or continues at one of the node's children. -/
def HeadLink (g : HGraph) (n : Nat) : List Nat → Prop
  | [] => True
  | m :: _ => m ∈ g.children n

/-- Declarative matching semantics of a pattern suffix: the downward
chains of graph nodes that satisfy pattern positions `i` and onward.
An empty chain matches when every remaining position is a "*" (each
matching zero nodes); a "." position consumes the chain's head when it is
a candidate of that position; a "*" position either matches zero nodes
(`starZero`) or consumes a candidate head and continues at the same
position (`starOne`).  Consecutive chain nodes are linked parent to
child. -/
inductive SMatch (g : HGraph) (pat : List Quant) (cands : Nat → List Nat) :
    Nat → List Nat → Prop where
  | nil (i : Nat)
      (hstars : ∀ j, i ≤ j → j < pat.length → pat.get? j = some Quant.star) :
      SMatch g pat cands i []
  | dot (i n : Nat) (rest : List Nat) (hq : pat.get? i = some Quant.dot)
      (hc : n ∈ cands i) (hl : HeadLink g n rest)
      (hm : SMatch g pat cands (i + 1) rest) : SMatch g pat cands i (n :: rest)
  | starZero (i : Nat) (chain : List Nat) (hq : pat.get? i = some Quant.star)
      (hm : SMatch g pat cands (i + 1) chain) : SMatch g pat cands i chain
  | starOne (i n : Nat) (rest : List Nat) (hq : pat.get? i = some Quant.star)
      (hc : n ∈ cands i) (hl : HeadLink g n rest)
      (hm : SMatch g pat cands i rest) : SMatch g pat cands i (n :: rest)

/-- A full satisfying path: a nonempty chain matching the whole pattern
from position 0. -/
def FullMatch (g : HGraph) (pat : List Quant) (cands : Nat → List Nat) : Prop :=
  ∃ chain, chain ≠ [] ∧ SMatch g pat cands 0 chain

/-- Call-context invariant of the search: every nonempty completion
rooted at `n` for the pattern suffix at `i` extends, through the call
path that led to `(n, i)`, to a full satisfying path. -/
def CtxOK (g : HGraph) (pat : List Quant) (cands : Nat → List Nat)
    (n i : Nat) : Prop :=
  ∀ t, t ≠ [] → t.head? = some n → SMatch g pat cands i t →
    FullMatch g pat cands

/-- Cache invariant during a no-match evaluation: every entry is either
the negative sentinel or the end-of-path success `[()]` written at a
final "*" position by a non-candidate node. -/
def NmCache (pat : List Quant) (cands : Nat → List Nat)
    (cache : PathCache) : Prop :=
  ∀ k v, (k, v) ∈ cache → v = none ∨
    (v = some [PVal.vtup []] ∧ pat.get? k.2 = some Quant.star ∧
      k.2 = pat.length - 1 ∧ k.1 ∉ cands k.2)

/-- All members of a node list are nodes of the graph. -/
def NodesSub (g : HGraph) (l : List Nat) : Prop := ∀ x ∈ l, x ∈ g.nodes

/-- All nodes stored in a search result are nodes of the graph. -/
def GoodRes (g : HGraph) : SearchRes → Prop
  | none => True
  | some l => ∀ pv ∈ l, NodesSub g (pvNodes pv)

/-- All nodes stored in the cache are nodes of the graph. -/
def GoodCache (g : HGraph) (cache : PathCache) : Prop :=
  ∀ k v, (k, v) ∈ cache → GoodRes g v

/-- Fixture predicate that holds on no row. -/
def wFalse : Pred := fun _ _ => false

/-- Claim C5 counterexample: the quantifier value 0 — an integer that is
not positive, hence not one of the enumerated legal forms — does not
produce an assertion failure: `range(0)` is empty, so `_add_node`
succeeds and appends nothing. -/
theorem addNode_zero_no_assertion :
    addNode (PyQuant.intq 0) wTrue [] = Except.ok [] ∧
    (Except.ok [] : Except PyErr (List (Quant × Pred))) ≠
      Except.error PyErr.assertionError := by
  constructor
  · rfl
  · intro h
    exact Except.noConfusion h

/-- Claim C5 (amended): `_add_node` appends `n.toNat` copies of
`(".", predicate)` for an integer quantifier `n` — exactly `n` elements
when `n` is positive, and nothing (with no assertion failure) when
`n ≤ 0`; `"+"` appends `(".", predicate)` then `("*", predicate)`;
`"."` and `"*"` append that single element; any other string quantifier
is an assertion failure. -/
theorem addNode_normalization (p : Pred) (pat : List (Quant × Pred)) :
    (∀ n : Int, 0 < n →
      addNode (PyQuant.intq n) p pat =
        Except.ok (pat ++ List.replicate n.toNat (Quant.dot, p)) ∧
      (List.replicate n.toNat (Quant.dot, p)).length = n.toNat ∧ 0 < n.toNat) ∧
    (∀ n : Int, n ≤ 0 → addNode (PyQuant.intq n) p pat = Except.ok pat) ∧
    (addNode (PyQuant.strq "+") p pat =
      Except.ok (pat ++ [(Quant.dot, p), (Quant.star, p)])) ∧
    (addNode (PyQuant.strq ".") p pat = Except.ok (pat ++ [(Quant.dot, p)])) ∧
    (addNode (PyQuant.strq "*") p pat = Except.ok (pat ++ [(Quant.star, p)])) ∧
    (∀ s : String, s ≠ "+" → s ≠ "." → s ≠ "*" →
      addNode (PyQuant.strq s) p pat = Except.error PyErr.assertionError) := by
  refine ⟨?_, ?_, rfl, rfl, rfl, ?_⟩
  · intro n hn
    refine ⟨rfl, List.length_replicate _ _, ?_⟩
    omega
  · intro n hn
    have hz : n.toNat = 0 := Int.toNat_of_nonpos hn
    simp [addNode, hz]
  · intro s h1 h2 h3
    simp [addNode, h1, h2, h3]

/-- Claim C5 witness for the amended statement. -/
theorem addNode_normalization_witness :
    (addNode (PyQuant.intq 2) wTrue [] =
      Except.ok [(Quant.dot, wTrue), (Quant.dot, wTrue)]) ∧
    (addNode (PyQuant.intq (-1)) wTrue [] = Except.ok []) ∧
    (addNode (PyQuant.strq "+") wTrue [] =
      Except.ok [(Quant.dot, wTrue), (Quant.star, wTrue)]) ∧
    (addNode (PyQuant.strq "plus") wTrue [] = Except.error PyErr.assertionError) := by
  have h := addNode_normalization wTrue []
  refine ⟨?_, ?_, ?_, ?_⟩
  · exact (h.1 2 (by omega)).1
  · exact h.2.1 (-1) (by omega)
  · exact h.2.2.1
  · exact h.2.2.2.2.2 "plus" (by decide) (by decide) (by decide)

/-- Claim C7 counterexample: constructing any compound query with zero
arguments (zero subqueries) raises IndexError from the unguarded
`queries[0]` subscript, not BadNumberNaryQueryArgs. -/
theorem compound_zero_args_index_error :
    conjunctionInit [] = Except.error PyErr.indexError ∧
    disjunctionInit [] = Except.error PyErr.indexError ∧
    exclusiveDisjunctionInit [] = Except.error PyErr.indexError ∧
    negationInit [] = Except.error PyErr.indexError ∧
    PyErr.indexError ≠ PyErr.badNumberNaryQueryArgs := by
  exact ⟨rfl, rfl, rfl, rfl, by decide⟩

/-- Claim C7 (amended): when at least one constructor argument is given
and the arguments collect into a subquery list, the constructors enforce
arity at construction time (before any evaluation):
ConjunctionQuery, DisjunctionQuery and ExclusiveDisjunctionQuery raise
BadNumberNaryQueryArgs exactly when fewer than 2 subqueries were
collected, and NegationQuery exactly when the number of collected
subqueries differs from 1; with zero arguments the `queries[0]` subscript
raises IndexError instead. -/
theorem compound_arity_check (args : List PyArg) (subs : List QueryT)
    (hcol : collectSubqueries args = Except.ok subs) :
    (conjunctionInit args =
      if subs.length < 2 then Except.error PyErr.badNumberNaryQueryArgs
      else Except.ok subs) ∧
    (disjunctionInit args =
      if subs.length < 2 then Except.error PyErr.badNumberNaryQueryArgs
      else Except.ok subs) ∧
    (exclusiveDisjunctionInit args =
      if subs.length < 2 then Except.error PyErr.badNumberNaryQueryArgs
      else Except.ok subs) ∧
    (negationInit args =
      if subs.length ≠ 1 then Except.error PyErr.badNumberNaryQueryArgs
      else Except.ok subs) := by
  refine ⟨?_, ?_, ?_, ?_⟩
  · unfold conjunctionInit
    rw [hcol]
  · unfold disjunctionInit
    rw [hcol]
  · unfold exclusiveDisjunctionInit
    rw [hcol]
  · unfold negationInit
    rw [hcol]

/-- Claim C7 witness: one-subquery constructions fail the arity check
with BadNumberNaryQueryArgs; two-subquery constructions succeed; a
one-subquery NegationQuery succeeds. -/
theorem compound_arity_check_witness :
    conjunctionInit [PyArg.q wQ] = Except.error PyErr.badNumberNaryQueryArgs ∧
    conjunctionInit [PyArg.q wQ, PyArg.q wQ] = Except.ok [wQ, wQ] ∧
    negationInit [PyArg.q wQ] = Except.ok [wQ] ∧
    negationInit [PyArg.q wQ, PyArg.q wQ] = Except.error PyErr.badNumberNaryQueryArgs := by
  have h1 := compound_arity_check [PyArg.q wQ] [wQ] rfl
  have h2 := compound_arity_check [PyArg.q wQ, PyArg.q wQ] [wQ, wQ] rfl
  refine ⟨?_, ?_, ?_, ?_⟩
  · simpa using h1.1
  · simpa using h2.1
  · simpa using h1.2.2.2
  · simpa using h2.2.2.2

/-- Claim C9: the infix operators dispatch to the patched `__and__`,
`__or__`, `__xor__` slots and build the corresponding compound queries
without touching their operands, but the prefix `~` dispatches to
`__invert__`, which the monkey-patching block never assigns (it assigns
`__not__`, a name no Python operator uses), so `~a` raises TypeError
instead of building a NegationQuery; `negate_query` itself does build
one when called directly. -/
theorem operators_patched_invert_missing :
    (∀ a b : QueryT, pyAnd a b = Except.ok (QueryT.comp CompOp.conj [a, b])) ∧
    (∀ a b : QueryT, pyOr a b = Except.ok (QueryT.comp CompOp.disj [a, b])) ∧
    (∀ a b : QueryT, pyXor a b = Except.ok (QueryT.comp CompOp.xdisj [a, b])) ∧
    (∀ a : QueryT, pyInvert a = Except.error PyErr.typeErr) ∧
    (∀ a : QueryT, negateQuery a = Except.ok (QueryT.comp CompOp.neg [a])) := by
  refine ⟨fun a b => rfl, fun a b => rfl, fun a b => rfl, fun a => rfl, fun a => rfl⟩

/-- Claim C3: at the failing input (one matching node, one-position "."
pattern), the search returns a list holding the 1-tuple `(node,)` but
caches a list holding the bare node (the `[(curr_node)]` write), so the
cache entry differs from the returned result; a later lookup of the same
pair returns that different value, and on a shared-subtree graph the full
apply consequently raises TypeError while iterating the bare node. -/
theorem path_cache_entry_differs :
    (findMatches wG [Quant.dot] (fun _ => [0]) 1 0 0 [] =
      Except.ok (some [PVal.vtup [0]], [((0, 0), some [PVal.vnode 0])])) ∧
    (PVal.vnode 0 ≠ PVal.vtup [0]) ∧
    (findMatches wG [Quant.dot] (fun _ => [0]) 1 0 0
        [((0, 0), some [PVal.vnode 0])] =
      Except.ok (some [PVal.vnode 0], [((0, 0), some [PVal.vnode 0])])) ∧
    (applyQ wDag (DFrame.single [0, 1, 2]) 10 (EngineState.mk [] [])
        (QueryT.pat [(Quant.dot, wTrue), (Quant.dot, wTrue)]) "off" =
      Except.error PyErr.typeErr) := by
  refine ⟨by rfl, by decide, by rfl, ?_⟩
  rfl

/-- Claim C1: behavior of the search at a "*" pattern position (with no
cache entry for the pair): (1) when the node satisfies the next
position's predicate, the search continues at position+1 at the same
node; (2) when the node fails the "*" position's own predicate (and the
zero-repetition skip does not apply) the search returns the
no-completion sentinel, unless the "*" is the final position, where it
returns an end-of-path success holding a single empty continuation;
(3) a candidate node with no children at a final "*" position yields the
single-node completion holding only that node. -/
theorem star_position_step (g : HGraph) (pat : List Quant) (cands : Nat → List Nat)
    (fuel n i : Nat) (cache : PathCache)
    (hstar : pat.get? i = some Quant.star)
    (hmiss : lookupCache cache (n, i) = none) :
    ((i < pat.length - 1 ∧ n ∈ cands (i + 1)) →
      findMatches g pat cands (fuel + 1) n i cache =
        findMatches g pat cands fuel n (i + 1) cache) ∧
    ((i < pat.length - 1 ∧ n ∉ cands i ∧ n ∉ cands (i + 1)) →
      findMatches g pat cands (fuel + 1) n i cache =
        Except.ok (none, insertCache cache (n, i) none)) ∧
    ((i = pat.length - 1 ∧ n ∉ cands i) →
      findMatches g pat cands (fuel + 1) n i cache =
        Except.ok (some [PVal.vtup []],
          insertCache cache (n, i) (some [PVal.vtup []]))) ∧
    ((i = pat.length - 1 ∧ n ∈ cands i ∧ g.children n = []) →
      findMatches g pat cands (fuel + 1) n i cache =
        Except.ok (some [PVal.vtup [n]], cache)) := by
  refine ⟨?_, ?_, ?_, ?_⟩
  · intro h
    simp only [findMatches, hmiss, hstar]
    rw [if_pos h]
  · rintro ⟨h1, h2, h3⟩
    simp only [findMatches, hmiss, hstar]
    rw [if_neg (by tauto), if_pos h2, if_pos h1]
  · rintro ⟨h1, h2⟩
    have hlt : ¬ i < pat.length - 1 := by omega
    simp only [findMatches, hmiss, hstar]
    rw [if_neg (by tauto), if_pos h2, if_neg hlt]
  · rintro ⟨h1, h2, h3⟩
    have hlt : ¬ i < pat.length - 1 := by omega
    simp only [findMatches, hmiss, hstar]
    rw [if_neg (by tauto), if_neg (by simpa using h2), if_pos ⟨h1, h3⟩]

/-- Claim C1 witness: the four cases of `star_position_step` at concrete
inputs (a two-position pattern for the skip and dead-end cases, a
one-position "*" pattern for the two final-position cases). -/
theorem star_position_step_witness :
    (findMatches wG [Quant.star, Quant.dot] (fun _ => [0]) 4 0 0 [] =
      findMatches wG [Quant.star, Quant.dot] (fun _ => [0]) 3 0 1 []) ∧
    (findMatches wG [Quant.star, Quant.dot] (fun _ => [5]) 4 0 0 [] =
      Except.ok (none, insertCache [] (0, 0) none)) ∧
    (findMatches wG [Quant.star] (fun _ => [5]) 4 0 0 [] =
      Except.ok (some [PVal.vtup []],
        insertCache [] (0, 0) (some [PVal.vtup []]))) ∧
    (findMatches wG [Quant.star] (fun _ => [0]) 4 0 0 [] =
      Except.ok (some [PVal.vtup [0]], [])) := by
  refine ⟨?_, ?_, ?_, ?_⟩
  · exact (star_position_step wG [Quant.star, Quant.dot] (fun _ => [0])
      3 0 0 [] rfl rfl).1 ⟨by decide, by decide⟩
  · exact (star_position_step wG [Quant.star, Quant.dot] (fun _ => [5])
      3 0 0 [] rfl rfl).2.1 ⟨by decide, by decide, by decide⟩
  · exact (star_position_step wG [Quant.star] (fun _ => [5])
      3 0 0 [] rfl rfl).2.2.1 ⟨by decide, by decide⟩
  · exact (star_position_step wG [Quant.star] (fun _ => [0])
      3 0 0 [] rfl rfl).2.2.2 ⟨by decide, by decide, by rfl⟩

/-- Claim C8: the engine's `apply` on a base query resets the candidate
and path caches before evaluating, so its outcome does not depend on the
engine state left by earlier evaluations: two successive applications of
the same Pattern to the same graph and attribute data return the same
result list (and leave the same engine state). -/
theorem apply_reset_idempotent (g : HGraph) (df : DFrame)
    (p : List (Quant × Pred)) (mode : String) (fuel : Nat)
    (st st1 st2 : EngineState) (r1 r2 : List Nat)
    (h1 : applyQ g df fuel st (QueryT.pat p) mode = Except.ok (r1, st1))
    (h2 : applyQ g df fuel st1 (QueryT.pat p) mode = Except.ok (r2, st2)) :
    r1 = r2 ∧ st1 = st2 := by
  have heq : applyQ g df fuel st (QueryT.pat p) mode =
      applyQ g df fuel st1 (QueryT.pat p) mode := by
    cases fuel with
    | zero => rfl
    | succ fuel => rfl
  rw [h1, h2] at heq
  cases heq
  exact ⟨rfl, rfl⟩

/-- Claim C8 witness: two successive applications at a concrete graph,
pattern and attribute index, from different starting engine states. -/
theorem apply_reset_idempotent_witness :
    applyQ wG (DFrame.single [0]) 5 (EngineState.mk [] [])
        (QueryT.pat [(Quant.dot, wTrue)]) "off" =
      Except.ok ([0], EngineState.mk [[0]] [((0, 0), some [PVal.vnode 0])]) ∧
    ([0] : List Nat) = [0] ∧
    EngineState.mk [[0]] [((0, 0), some [PVal.vnode 0])] =
      EngineState.mk [[0]] [((0, 0), some [PVal.vnode 0])] := by
  refine ⟨by rfl, ?_⟩
  exact apply_reset_idempotent wG (DFrame.single [0]) [(Quant.dot, wTrue)] "off" 5
    (EngineState.mk [] []) (EngineState.mk [[0]] [((0, 0), some [PVal.vnode 0])])
    (EngineState.mk [[0]] [((0, 0), some [PVal.vnode 0])]) [0] [0] (by rfl) (by rfl)

/-- Helper for claim C10: with mode "off" and multi-indexed data, `apply`
fails with MultiIndexModeMismatch on any query whose leftmost leaf is a
nonempty base pattern. -/
theorem applyQ_multi_off_mismatch (g : HGraph) (rows : List (Nat × Nat)) :
    ∀ fuel q st, leftLeafOK q = true → leftDepth q ≤ fuel →
      applyQ g (DFrame.multi rows) fuel st q "off" =
        Except.error PyErr.multiIndexModeMismatch := by
  intro fuel
  induction fuel with
  | zero =>
      intro q st _ hdep
      cases q with
      | pat p => simp [leftDepth] at hdep
      | comp op subs =>
          cases subs with
          | nil => simp [leftDepth] at hdep
          | cons q0 rest => simp [leftDepth] at hdep
  | succ fuel ih =>
      intro q st hok hdep
      cases q with
      | pat p =>
          have hp : p.isEmpty = false := by
            simpa [leftLeafOK] using hok
          simp [applyQ, initEngine, hp]
      | comp op subs =>
          cases subs with
          | nil => simp [leftLeafOK] at hok
          | cons q0 rest =>
              have hok0 : leftLeafOK q0 = true := by
                simpa [leftLeafOK] using hok
              have hdep0 : leftDepth q0 ≤ fuel := by
                simp [leftDepth] at hdep
                omega
              simp [applyQ, applySubs, ih q0 st hok0 hdep0]

/-- Claim C10: the engine's compound-query branch re-invokes `apply` on
each subquery without forwarding the caller's multi-index mode, so each
subquery runs with the default mode "off"; hence on multi-indexed data a
compound query fails with MultiIndexModeMismatch no matter what mode the
caller passed at the top level. -/
theorem compound_subquery_mode_not_forwarded (g : HGraph)
    (rows : List (Nat × Nat)) (fuel : Nat) (st : EngineState)
    (op : CompOp) (subs : List QueryT) (mode : String)
    (hok : leftLeafOK (QueryT.comp op subs) = true)
    (hdep : leftDepth (QueryT.comp op subs) ≤ fuel) :
    applyQ g (DFrame.multi rows) fuel st (QueryT.comp op subs) mode =
      Except.error PyErr.multiIndexModeMismatch := by
  cases subs with
  | nil => simp [leftLeafOK] at hok
  | cons q0 rest =>
      cases fuel with
      | zero => simp [leftDepth] at hdep
      | succ fuel =>
          have hok0 : leftLeafOK q0 = true := by
            simpa [leftLeafOK] using hok
          have hdep0 : leftDepth q0 ≤ fuel := by
            simp [leftDepth] at hdep
            omega
          simp [applyQ, applySubs,
            applyQ_multi_off_mismatch g rows fuel q0 st hok0 hdep0]

/-- Claim C10 witness: a concrete conjunction over a multi-indexed
attribute table with top-level mode "any" fails with
MultiIndexModeMismatch. -/
theorem compound_subquery_mode_not_forwarded_witness :
    applyQ wG (DFrame.multi [(0, 0), (0, 1)]) 4 (EngineState.mk [] [])
        (QueryT.comp CompOp.conj [wQ, wQ]) "any" =
      Except.error PyErr.multiIndexModeMismatch := by
  exact compound_subquery_mode_not_forwarded wG [(0, 0), (0, 1)] 4
    (EngineState.mk [] []) CompOp.conj [wQ, wQ] "any" (by rfl) (by decide)

/-- Claim C2: evaluating a compound query evaluates each subquery
independently and combines the result node-sets with the corresponding
set operation: intersection for ConjunctionQuery, union for
DisjunctionQuery, symmetric difference for ExclusiveDisjunctionQuery
(folded pairwise left-to-right over the list of subquery results), and
full-traversal node set minus the subquery's result for NegationQuery. -/
theorem compound_set_algebra (g : HGraph) (df : DFrame) (fuel : Nat)
    (st : EngineState) (p q : QueryT) (mode : String)
    (rp rq : List Nat) (stp stq : EngineState)
    (hp : applyQ g df fuel st p "off" = Except.ok (rp, stp))
    (hq : applyQ g df fuel stp q "off" = Except.ok (rq, stq)) :
    (∃ l, applyQ g df (fuel + 1) st (QueryT.comp CompOp.conj [p, q]) mode =
        Except.ok (l, stq) ∧ l.toFinset = rp.toFinset ∩ rq.toFinset) ∧
    (∃ l, applyQ g df (fuel + 1) st (QueryT.comp CompOp.disj [p, q]) mode =
        Except.ok (l, stq) ∧ l.toFinset = rp.toFinset ∪ rq.toFinset) ∧
    (∃ l, applyQ g df (fuel + 1) st (QueryT.comp CompOp.xdisj [p, q]) mode =
        Except.ok (l, stq) ∧ l.toFinset = symmDiff rp.toFinset rq.toFinset) ∧
    (∃ l, applyQ g df (fuel + 1) st (QueryT.comp CompOp.neg [p]) mode =
        Except.ok (l, stp) ∧ l.toFinset = g.nodes.toFinset \ rp.toFinset) ∧
    (∀ subs results st3,
      applySubs (fun s q2 => applyQ g df fuel s q2 "off") st subs =
        Except.ok (results, st3) →
      ∃ l, applyQ g df (fuel + 1) st (QueryT.comp CompOp.xdisj subs) mode =
          Except.ok (l, st3) ∧
        l.toFinset = results.foldl (fun s r => symmDiff s r.toFinset) ∅) := by
  refine ⟨?_, ?_, ?_, ?_, ?_⟩
  · refine ⟨(rp.toFinset ∩ rq.toFinset).sort (· ≤ ·), ?_, Finset.sort_toFinset _ _⟩
    simp [applyQ, applySubs, hp, hq, applyOp, conjApplyOp]
  · refine ⟨(rp.toFinset ∪ rq.toFinset).sort (· ≤ ·), ?_, Finset.sort_toFinset _ _⟩
    simp [applyQ, applySubs, hp, hq, applyOp, disjApplyOp]
  · refine ⟨(symmDiff rp.toFinset rq.toFinset).sort (· ≤ ·), ?_,
      Finset.sort_toFinset _ _⟩
    have hbot : symmDiff (∅ : Finset Nat) rp.toFinset = rp.toFinset := by
      rw [← Finset.bot_eq_empty, bot_symmDiff]
    simp [applyQ, applySubs, hp, hq, applyOp, xdisjApplyOp, hbot]
  · refine ⟨(g.nodes.toFinset \ rp.toFinset).sort (· ≤ ·), ?_,
      Finset.sort_toFinset _ _⟩
    simp [applyQ, applySubs, hp, applyOp, negApplyOp]
  · intro subs results st3 hsubs
    refine ⟨(results.foldl (fun s r => symmDiff s r.toFinset) (∅ : Finset Nat)).sort (· ≤ ·), ?_,
      Finset.sort_toFinset _ _⟩
    simp [applyQ, hsubs, applyOp, xdisjApplyOp]

/-- Claim C2 witness: the conjunction case at a concrete graph and two
concrete one-position patterns. -/
theorem compound_set_algebra_witness :
    ∃ l, applyQ wDag (DFrame.single [0, 1, 2]) 6 (EngineState.mk [] [])
        (QueryT.comp CompOp.conj [pA, pB]) "off" =
      Except.ok (l,
        EngineState.mk [[1, 2]]
          [((2, 0), some [PVal.vnode 2]), ((1, 0), some [PVal.vnode 1])]) ∧
      l.toFinset = ([0, 1] : List Nat).toFinset ∩ ([1, 2] : List Nat).toFinset := by
  exact (compound_set_algebra wDag (DFrame.single [0, 1, 2]) 5 (EngineState.mk [] [])
    pA pB "off" [0, 1] [1, 2]
    (EngineState.mk [[0, 1]]
      [((1, 0), some [PVal.vnode 1]), ((0, 0), some [PVal.vnode 0])])
    (EngineState.mk [[1, 2]]
      [((2, 0), some [PVal.vnode 2]), ((1, 0), some [PVal.vnode 1])])
    (by rfl) (by rfl)).1

/-- Membership in `insertByKey` results. -/
theorem mem_insertByKey (key : Nat → Nat) (x y : Nat) (l : List Nat) :
    y ∈ insertByKey key x l ↔ y = x ∨ y ∈ l := by
  induction l with
  | nil => simp [insertByKey]
  | cons a as ih =>
      simp only [insertByKey]
      by_cases h : key x ≤ key a
      · simp [h]
      · simp [h, ih]
        tauto

/-- Sorting by key preserves membership. -/
theorem mem_sortByKey (key : Nat → Nat) (l : List Nat) (y : Nat) :
    y ∈ sortByKey key l ↔ y ∈ l := by
  induction l with
  | nil => simp [sortByKey]
  | cons a as ih =>
      have hstep : sortByKey key (a :: as) = insertByKey key a (sortByKey key as) := rfl
      rw [hstep, mem_insertByKey]
      simp [ih]

/-- `getD` on a map over `List.range`. -/
theorem getD_map_range (len i : Nat) (h : i < len) (f : Nat → α) (d : α) :
    ((List.range len).map f).getD i d = f i := by
  rw [List.getD_eq_getElem?_getD, List.getElem?_map, List.getElem?_range h]
  rfl

/-- `getD` on a mapped list at an in-range index. -/
theorem getD_map_get (l : List α) (i : Nat) (h : i < l.length) (f : α → β) (d : β) :
    (l.map f).getD i d = f (l.get ⟨i, h⟩) := by
  rw [List.getD_eq_getElem?_getD, List.getElem?_map, List.getElem?_eq_getElem h]
  rfl

/-- `any` of an identity test over a mapped boolean list. -/
theorem any_id_map (l : List α) (f : α → Bool) :
    (l.map f).any (fun b => b) = l.any f := by
  induction l with
  | nil => rfl
  | cons a as ih => simp [ih]

/-- `all` of an identity test over a mapped boolean list. -/
theorem all_id_map (l : List α) (f : α → Bool) :
    (l.map f).all (fun b => b) = l.all f := by
  induction l with
  | nil => rfl
  | cons a as ih => simp [ih]

/-- One step of the predicate table. -/
theorem predicateTable_cons (pats : List (Quant × Pred)) (r : Nat × Nat)
    (rs : List (Nat × Nat)) :
    predicateTable pats (r :: rs) =
      (r, pats.map (fun qp => qp.2 r.1 r.2)) :: predicateTable pats rs := rfl

/-- The "any" aggregation of one node's group of predicate-table rows at
one pattern position equals the position's predicate tested over the
node's attribute rows. -/
theorem group_any (pats : List (Quant × Pred)) (i : Nat) (hi : i < pats.length)
    (n : Nat) (rows : List (Nat × Nat)) :
    (((predicateTable pats rows).filter (fun row => row.1.1 = n)).map
        (fun row => row.2.getD i false)).any (fun b => b)
      = (rows.filter (fun r => r.1 = n)).any
          (fun r => (pats.get ⟨i, hi⟩).2 r.1 r.2) := by
  induction rows with
  | nil => rfl
  | cons r rs ih =>
      rw [predicateTable_cons]
      by_cases h : r.1 = n
      · rw [List.filter_cons_of_pos (by simpa using h),
          List.filter_cons_of_pos (by simpa using h),
          List.map_cons, List.any_cons, List.any_cons, ih]
        congr 1
        exact getD_map_get pats i hi _ _
      · rw [List.filter_cons_of_neg (by simpa using h),
          List.filter_cons_of_neg (by simpa using h)]
        exact ih

/-- The "all" aggregation of one node's group of predicate-table rows at
one pattern position equals the position's predicate tested over the
node's attribute rows. -/
theorem group_all (pats : List (Quant × Pred)) (i : Nat) (hi : i < pats.length)
    (n : Nat) (rows : List (Nat × Nat)) :
    (((predicateTable pats rows).filter (fun row => row.1.1 = n)).map
        (fun row => row.2.getD i false)).all (fun b => b)
      = (rows.filter (fun r => r.1 = n)).all
          (fun r => (pats.get ⟨i, hi⟩).2 r.1 r.2) := by
  induction rows with
  | nil => rfl
  | cons r rs ih =>
      rw [predicateTable_cons]
      by_cases h : r.1 = n
      · rw [List.filter_cons_of_pos (by simpa using h),
          List.filter_cons_of_pos (by simpa using h),
          List.map_cons, List.all_cons, List.all_cons, ih]
        congr 1
        exact getD_map_get pats i hi _ _
      · rw [List.filter_cons_of_neg (by simpa using h),
          List.filter_cons_of_neg (by simpa using h)]
        exact ih

/-- Membership of a node in the filtered projection of a keyed table. -/
theorem mem_map_fst_filter_keyed (keys : List Nat) (v : Nat → List Bool)
    (p : Nat × List Bool → Bool) (n : Nat) :
    (n ∈ ((keys.map (fun k => (k, v k))).filter p).map Prod.fst) ↔
      (n ∈ keys ∧ p (n, v n) = true) := by
  constructor
  · intro hmem
    rcases List.mem_map.mp hmem with ⟨row, hrow, hfst⟩
    rcases List.mem_filter.mp hrow with ⟨hmem2, hp⟩
    rcases List.mem_map.mp hmem2 with ⟨k, hk, hkeq⟩
    rw [← hkeq] at hfst hp
    simp only at hfst
    rw [hfst] at hk hp
    exact ⟨hk, hp⟩
  · rintro ⟨hk, hp⟩
    exact List.mem_map.mpr ⟨(n, v n),
      List.mem_filter.mpr ⟨List.mem_map.mpr ⟨n, hk, rfl⟩, hp⟩, rfl⟩

/-- `getD` into the candidate list built from a boolean table. -/
theorem candidatesOfTable_getD (len : Nat) (table : List (Nat × List Bool))
    (i : Nat) (h : i < len) :
    (candidatesOfTable len table).getD i [] =
      (table.filter (fun row => row.2.getD i false)).map Prod.fst :=
  getD_map_range len i h _ _

/-- Claim C6: candidate generation validates the aggregation mode before
touching any predicate (an unknown mode is a plain ValueError for every
pattern and attribute table); multi-indexed data under mode "off" raises
MultiIndexModeMismatch; and under modes "any"/"all" the per-row booleans
of each node are aggregated with logical any/all to form each position's
candidate set. -/
theorem init_multi_index_modes (pats : List (Quant × Pred))
    (rows : List (Nat × Nat)) :
    (pats ≠ [] →
      initEngine pats (DFrame.multi rows) "off" =
        Except.error PyErr.multiIndexModeMismatch) ∧
    (∀ mode, mode ∉ (["off", "any", "all"] : List String) →
      ∀ pats2 df, initEngine pats2 df mode = Except.error PyErr.valueError) ∧
    (pats ≠ [] → ∃ cands,
      initEngine pats (DFrame.multi rows) "any" = Except.ok cands ∧
      cands.length = pats.length ∧
      ∀ i, ∀ hi : i < pats.length, ∀ n,
        (n ∈ cands.getD i [] ↔ (n ∈ rows.map Prod.fst ∧
          (rows.filter (fun r => r.1 = n)).any
            (fun r => (pats.get ⟨i, hi⟩).2 r.1 r.2) = true))) ∧
    (pats ≠ [] → ∃ cands,
      initEngine pats (DFrame.multi rows) "all" = Except.ok cands ∧
      cands.length = pats.length ∧
      ∀ i, ∀ hi : i < pats.length, ∀ n,
        (n ∈ cands.getD i [] ↔ (n ∈ rows.map Prod.fst ∧
          (rows.filter (fun r => r.1 = n)).all
            (fun r => (pats.get ⟨i, hi⟩).2 r.1 r.2) = true))) := by
  refine ⟨?_, ?_, ?_, ?_⟩
  · intro hne
    cases pats with
    | nil => exact absurd rfl hne
    | cons qp rest => rfl
  · intro mode hmode pats2 df
    unfold initEngine
    rw [if_pos hmode]
  · intro hne
    cases pats with
    | nil => exact absurd rfl hne
    | cons qp rest =>
        refine ⟨candidatesOfTable (qp :: rest).length
          (aggRows (qp :: rest) rows "any"), rfl, by simp [candidatesOfTable], ?_⟩
        intro i hi n
        rw [candidatesOfTable_getD _ _ _ hi]
        unfold aggRows
        rw [mem_map_fst_filter_keyed]
        rw [getD_map_range _ i hi]
        rw [if_pos rfl]
        rw [group_any (qp :: rest) i hi n rows]
        rw [mem_sortByKey, List.mem_dedup]
  · intro hne
    cases pats with
    | nil => exact absurd rfl hne
    | cons qp rest =>
        refine ⟨candidatesOfTable (qp :: rest).length
          (aggRows (qp :: rest) rows "all"), rfl, by simp [candidatesOfTable], ?_⟩
        intro i hi n
        rw [candidatesOfTable_getD _ _ _ hi]
        unfold aggRows
        rw [mem_map_fst_filter_keyed]
        rw [getD_map_range _ i hi]
        rw [if_neg (by decide)]
        rw [group_all (qp :: rest) i hi n rows]
        rw [mem_sortByKey, List.mem_dedup]

/-- Claim C6 witness: the four clauses of `init_multi_index_modes` at a
concrete pattern and concrete multi-indexed rows. -/
theorem init_multi_index_modes_witness :
    (initEngine wPats (DFrame.multi wRows) "off" =
      Except.error PyErr.multiIndexModeMismatch) ∧
    (initEngine wPats (DFrame.single [0]) "bogus" =
      Except.error PyErr.valueError) ∧
    (∃ cands,
      initEngine wPats (DFrame.multi wRows) "any" = Except.ok cands ∧
      cands.length = wPats.length ∧
      ∀ i, ∀ hi : i < wPats.length, ∀ n,
        (n ∈ cands.getD i [] ↔ (n ∈ wRows.map Prod.fst ∧
          (wRows.filter (fun r => r.1 = n)).any
            (fun r => (wPats.get ⟨i, hi⟩).2 r.1 r.2) = true))) ∧
    (∃ cands,
      initEngine wPats (DFrame.multi wRows) "all" = Except.ok cands ∧
      cands.length = wPats.length ∧
      ∀ i, ∀ hi : i < wPats.length, ∀ n,
        (n ∈ cands.getD i [] ↔ (n ∈ wRows.map Prod.fst ∧
          (wRows.filter (fun r => r.1 = n)).all
            (fun r => (wPats.get ⟨i, hi⟩).2 r.1 r.2) = true))) := by
  have h := init_multi_index_modes wPats wRows
  have hne : wPats ≠ [] := by
    intro hx
    exact List.noConfusion hx
  exact ⟨h.1 hne, h.2.1 "bogus" (by decide) wPats (DFrame.single [0]),
    h.2.2.1 hne, h.2.2.2 hne⟩

/-- A successful cache lookup returns a stored entry. -/
theorem lookupCache_mem (cache : PathCache) (k : Nat × Nat) (v : SearchRes)
    (h : lookupCache cache k = some v) : (k, v) ∈ cache := by
  induction cache with
  | nil => exact Option.noConfusion h
  | cons kv rest ih =>
      rcases kv with ⟨k2, v2⟩
      by_cases hk : k2 = k
      · subst hk
        simp [lookupCache] at h
        subst h
        exact List.mem_cons_self _ _
      · simp [lookupCache, hk] at h
        exact List.mem_cons_of_mem _ (ih h)

/-- Inserting the negative sentinel preserves the no-match cache
invariant. -/
theorem NmCache_insert_none (pat : List Quant) (cands : Nat → List Nat)
    (cache : PathCache) (k : Nat × Nat) (h : NmCache pat cands cache) :
    NmCache pat cands (insertCache cache k none) := by
  intro k2 v2 hmem
  rcases List.mem_cons.mp hmem with heq | hmem2
  · cases heq
    exact Or.inl rfl
  · exact h k2 v2 hmem2

/-- Inserting the final-star end-of-path entry preserves the no-match
cache invariant. -/
theorem NmCache_insert_eop (pat : List Quant) (cands : Nat → List Nat)
    (cache : PathCache) (n i : Nat) (h : NmCache pat cands cache)
    (hq : pat.get? i = some Quant.star) (hi : i = pat.length - 1)
    (hc : n ∉ cands i) :
    NmCache pat cands (insertCache cache (n, i) (some [PVal.vtup []])) := by
  intro k2 v2 hmem
  rcases List.mem_cons.mp hmem with heq | hmem2
  · cases heq
    exact Or.inr ⟨rfl, hq, hi, hc⟩
  · exact h k2 v2 hmem2

/-- The head of a nonempty matching chain is a candidate of some
position. -/
theorem smatch_head_mem (g : HGraph) (pat : List Quant)
    (cands : Nat → List Nat) :
    ∀ i chain, SMatch g pat cands i chain →
      ∀ n rest, chain = n :: rest → ∃ j, n ∈ cands j := by
  intro i chain hm
  induction hm with
  | nil i hstars => intro n rest h; exact List.noConfusion h
  | dot i n2 rest2 hq hc hl hm ih =>
      intro n rest h
      cases h
      exact ⟨i, hc⟩
  | starZero i chain hq hm ih => exact ih
  | starOne i n2 rest2 hq hc hl hm ih =>
      intro n rest h
      cases h
      exact ⟨i, hc⟩

/-- Membership after adding one tuple to the deduplicated set. -/
theorem mem_addTup (acc : List (List Nat)) (t x : List Nat) :
    x ∈ addTup acc t ↔ x ∈ acc ∨ x = t := by
  unfold addTup
  by_cases h : t ∈ acc
  · simp [h]
    intro hx
    rw [hx]
    exact h
  · simp [h]

/-- Re-adding an already-present tuple changes nothing. -/
theorem addTup_mem_eq (acc : List (List Nat)) (t : List Nat)
    (h : t ∈ acc) : addTup acc t = acc := by
  unfold addTup
  rw [if_pos h]

/-- Step lemma: cache hit returns the stored entry unchanged. -/
theorem findMatches_hit (g : HGraph) (pat : List Quant) (cands : Nat → List Nat)
    (fuel n i : Nat) (cache : PathCache) (v : SearchRes)
    (h : lookupCache cache (n, i) = some v) :
    findMatches g pat cands (fuel + 1) n i cache = Except.ok (v, cache) := by
  simp only [findMatches, h]

/-- Step lemma: "." position, non-candidate node. -/
theorem findMatches_dot_fail (g : HGraph) (pat : List Quant)
    (cands : Nat → List Nat) (fuel n i : Nat) (cache : PathCache)
    (hmiss : lookupCache cache (n, i) = none)
    (hq : pat.get? i = some Quant.dot) (hc : n ∉ cands i) :
    findMatches g pat cands (fuel + 1) n i cache =
      Except.ok (none, insertCache cache (n, i) none) := by
  simp only [findMatches, hmiss, hq]
  rw [if_pos hc]

/-- Step lemma: "." position, candidate node at the final position. -/
theorem findMatches_dot_last (g : HGraph) (pat : List Quant)
    (cands : Nat → List Nat) (fuel n i : Nat) (cache : PathCache)
    (hmiss : lookupCache cache (n, i) = none)
    (hq : pat.get? i = some Quant.dot) (hc : n ∈ cands i)
    (hlast : i = pat.length - 1) :
    findMatches g pat cands (fuel + 1) n i cache =
      Except.ok (some [PVal.vtup [n]],
        insertCache cache (n, i) (some [PVal.vnode n])) := by
  simp only [findMatches, hmiss, hq]
  rw [if_neg (not_not_intro hc), if_pos hlast]

/-- Step lemma: "." position, candidate node at the last-but-one position
followed by a final "*". -/
theorem findMatches_dot_prestar (g : HGraph) (pat : List Quant)
    (cands : Nat → List Nat) (fuel n i : Nat) (cache : PathCache)
    (hmiss : lookupCache cache (n, i) = none)
    (hq : pat.get? i = some Quant.dot) (hc : n ∈ cands i)
    (hnl : i ≠ pat.length - 1)
    (hps : i = pat.length - 2 ∧ pat.get? (i + 1) = some Quant.star) :
    findMatches g pat cands (fuel + 1) n i cache =
      Except.ok (some [PVal.vtup [n]],
        insertCache cache (n, i) (some [PVal.vnode n])) := by
  simp only [findMatches, hmiss, hq]
  rw [if_neg (not_not_intro hc), if_neg hnl, if_pos hps]

/-- Step lemma: "." position, candidate node recursing into children at
the next position. -/
theorem findMatches_dot_children (g : HGraph) (pat : List Quant)
    (cands : Nat → List Nat) (fuel n i : Nat) (cache : PathCache)
    (hmiss : lookupCache cache (n, i) = none)
    (hq : pat.get? i = some Quant.dot) (hc : n ∈ cands i)
    (hnl : i ≠ pat.length - 1)
    (hnps : ¬(i = pat.length - 2 ∧ pat.get? (i + 1) = some Quant.star)) :
    findMatches g pat cands (fuel + 1) n i cache =
      runChildren g (findMatches g pat cands fuel) n i (i + 1) cache := by
  simp only [findMatches, hmiss, hq]
  rw [if_neg (not_not_intro hc), if_neg hnl, if_neg hnps]

/-- Step lemma: "*" position, zero-repetition skip to the next position. -/
theorem findMatches_star_skip (g : HGraph) (pat : List Quant)
    (cands : Nat → List Nat) (fuel n i : Nat) (cache : PathCache)
    (hmiss : lookupCache cache (n, i) = none)
    (hq : pat.get? i = some Quant.star)
    (hskip : i < pat.length - 1 ∧ n ∈ cands (i + 1)) :
    findMatches g pat cands (fuel + 1) n i cache =
      findMatches g pat cands fuel n (i + 1) cache := by
  simp only [findMatches, hmiss, hq]
  rw [if_pos hskip]

/-- Step lemma: "*" position, non-candidate node before the final
position: dead end. -/
theorem findMatches_star_fail_mid (g : HGraph) (pat : List Quant)
    (cands : Nat → List Nat) (fuel n i : Nat) (cache : PathCache)
    (hmiss : lookupCache cache (n, i) = none)
    (hq : pat.get? i = some Quant.star)
    (hns : ¬(i < pat.length - 1 ∧ n ∈ cands (i + 1)))
    (hc : n ∉ cands i) (hlt : i < pat.length - 1) :
    findMatches g pat cands (fuel + 1) n i cache =
      Except.ok (none, insertCache cache (n, i) none) := by
  simp only [findMatches, hmiss, hq]
  rw [if_neg hns, if_pos hc, if_pos hlt]

/-- Step lemma: "*" position, non-candidate node at the final position:
end-of-path success with an empty continuation. -/
theorem findMatches_star_fail_last (g : HGraph) (pat : List Quant)
    (cands : Nat → List Nat) (fuel n i : Nat) (cache : PathCache)
    (hmiss : lookupCache cache (n, i) = none)
    (hq : pat.get? i = some Quant.star)
    (hns : ¬(i < pat.length - 1 ∧ n ∈ cands (i + 1)))
    (hc : n ∉ cands i) (hge : ¬ i < pat.length - 1) :
    findMatches g pat cands (fuel + 1) n i cache =
      Except.ok (some [PVal.vtup []],
        insertCache cache (n, i) (some [PVal.vtup []])) := by
  simp only [findMatches, hmiss, hq]
  rw [if_neg hns, if_pos hc, if_neg hge]

/-- Step lemma: "*" position, candidate leaf node at the final position:
single-node completion, not cached. -/
theorem findMatches_star_leaf (g : HGraph) (pat : List Quant)
    (cands : Nat → List Nat) (fuel n i : Nat) (cache : PathCache)
    (hmiss : lookupCache cache (n, i) = none)
    (hq : pat.get? i = some Quant.star)
    (hns : ¬(i < pat.length - 1 ∧ n ∈ cands (i + 1)))
    (hc : n ∈ cands i) (hll : i = pat.length - 1 ∧ g.children n = []) :
    findMatches g pat cands (fuel + 1) n i cache =
      Except.ok (some [PVal.vtup [n]], cache) := by
  simp only [findMatches, hmiss, hq]
  rw [if_neg hns, if_neg (not_not_intro hc), if_pos hll]

/-- Step lemma: "*" position, candidate node recursing into children at
the same position. -/
theorem findMatches_star_children (g : HGraph) (pat : List Quant)
    (cands : Nat → List Nat) (fuel n i : Nat) (cache : PathCache)
    (hmiss : lookupCache cache (n, i) = none)
    (hq : pat.get? i = some Quant.star)
    (hns : ¬(i < pat.length - 1 ∧ n ∈ cands (i + 1)))
    (hc : n ∈ cands i) (hnll : ¬(i = pat.length - 1 ∧ g.children n = [])) :
    findMatches g pat cands (fuel + 1) n i cache =
      runChildren g (findMatches g pat cands fuel) n i i cache := by
  simp only [findMatches, hmiss, hq]
  rw [if_neg hns, if_neg (not_not_intro hc), if_neg hnll]

/-- Child-loop lemma for no-match evaluations: when every child call
either runs out of fuel, fails, or returns the final-star end-of-path
value, the accumulated `child_paths` set stays empty or gains only the
empty tuple, and the cache invariant is preserved. -/
theorem childLoop_nomatch (pat : List Quant) (cands : Nat → List Nat)
    (f : Nat → Nat → PathCache → Except PyErr (SearchRes × PathCache))
    (ni : Nat) :
    ∀ cs : List Nat,
      (∀ c ∈ cs, ∀ cache, NmCache pat cands cache →
        f c ni cache = Except.error PyErr.fuelOut ∨
        (∃ cache2, f c ni cache = Except.ok (none, cache2) ∧
          NmCache pat cands cache2) ∨
        (∃ cache2, f c ni cache = Except.ok (some [PVal.vtup []], cache2) ∧
          NmCache pat cands cache2 ∧ pat.get? ni = some Quant.star ∧
          ni = pat.length - 1 ∧ c ∉ cands ni)) →
      ∀ acc cache, NmCache pat cands cache →
        childLoop f cs ni acc cache = Except.error PyErr.fuelOut ∨
        (∃ acc2 cache2, childLoop f cs ni acc cache = Except.ok (acc2, cache2) ∧
          NmCache pat cands cache2 ∧
          (acc2 = acc ∨ (acc2 = addTup acc [] ∧ pat.get? ni = some Quant.star ∧
            ni = pat.length - 1))) := by
  intro cs
  induction cs with
  | nil =>
      intro _ acc cache hcache
      exact Or.inr ⟨acc, cache, rfl, hcache, Or.inl rfl⟩
  | cons c cs ih =>
      intro hf acc cache hcache
      have hfc := hf c (List.mem_cons_self _ _) cache hcache
      have hfr : ∀ c2 ∈ cs, ∀ cache2, NmCache pat cands cache2 →
          f c2 ni cache2 = Except.error PyErr.fuelOut ∨
          (∃ cache3, f c2 ni cache2 = Except.ok (none, cache3) ∧
            NmCache pat cands cache3) ∨
          (∃ cache3, f c2 ni cache2 = Except.ok (some [PVal.vtup []], cache3) ∧
            NmCache pat cands cache3 ∧ pat.get? ni = some Quant.star ∧
            ni = pat.length - 1 ∧ c2 ∉ cands ni) :=
        fun c2 hc2 => hf c2 (List.mem_cons_of_mem _ hc2)
      rcases hfc with hstep | ⟨cache2, hstep, hc2⟩ |
        ⟨cache2, hstep, hc2, hq, hlen, hnc⟩
      · left
        simp only [childLoop, hstep]
      · have := ih hfr acc cache2 hc2
        rcases this with hcl | ⟨acc2, cache3, hcl, hc3, hdisj⟩
        · left
          simp only [childLoop, hstep]
          exact hcl
        · right
          refine ⟨acc2, cache3, ?_, hc3, hdisj⟩
          simp only [childLoop, hstep]
          exact hcl
      · have := ih hfr (addTup acc []) cache2 hc2
        rcases this with hcl | ⟨acc2, cache3, hcl, hc3, hdisj⟩
        · left
          simp only [childLoop, hstep, pyTuples, pyTuple, List.foldl]
          exact hcl
        · right
          refine ⟨acc2, cache3, ?_, hc3, ?_⟩
          · simp only [childLoop, hstep, pyTuples, pyTuple, List.foldl]
            exact hcl
          · rcases hdisj with rfl | ⟨hacc2, _, _⟩
            · exact Or.inr ⟨rfl, hq, hlen⟩
            · rw [hacc2, addTup_mem_eq _ _ ((mem_addTup acc [] []).mpr (Or.inr rfl))]
              exact Or.inr ⟨rfl, hq, hlen⟩

/-- Main no-match lemma: when no full satisfying path exists, every
search call made in a valid call context returns (fuel permitting)
either the negative sentinel or the final-star end-of-path value, and
the cache keeps only such entries. -/
theorem fm_nomatch (g : HGraph) (pat : List Quant) (cands : Nat → List Nat)
    (hnf : ¬ FullMatch g pat cands) :
    ∀ fuel n i cache, i < pat.length → NmCache pat cands cache →
      CtxOK g pat cands n i →
      findMatches g pat cands fuel n i cache = Except.error PyErr.fuelOut ∨
      (∃ cache2, findMatches g pat cands fuel n i cache =
          Except.ok (none, cache2) ∧ NmCache pat cands cache2) ∨
      (∃ cache2, findMatches g pat cands fuel n i cache =
          Except.ok (some [PVal.vtup []], cache2) ∧ NmCache pat cands cache2 ∧
        pat.get? i = some Quant.star ∧ i = pat.length - 1 ∧ n ∉ cands i) := by
  intro fuel
  induction fuel with
  | zero =>
      intro n i cache _ _ _
      exact Or.inl rfl
  | succ fuel ih =>
      intro n i cache hi hcache hctx
      cases hlook : lookupCache cache (n, i) with
      | some v =>
          have hmem := lookupCache_mem _ _ _ hlook
          rcases hcache (n, i) v hmem with hv | ⟨hv, hq2, hlen2, hnc2⟩
          · subst hv
            exact Or.inr (Or.inl ⟨cache,
              findMatches_hit g pat cands fuel n i cache none hlook, hcache⟩)
          · subst hv
            exact Or.inr (Or.inr ⟨cache,
              findMatches_hit g pat cands fuel n i cache _ hlook, hcache,
              hq2, hlen2, hnc2⟩)
      | none =>
          have hq := List.get?_eq_get hi
          cases hq2 : pat.get ⟨i, hi⟩ with
          | dot =>
              have hqd : pat.get? i = some Quant.dot := by rw [hq, hq2]
              by_cases hc : n ∈ cands i
              · by_cases hlast : i = pat.length - 1
                · exfalso
                  apply hnf
                  apply hctx [n] (List.cons_ne_nil _ _) rfl
                  refine SMatch.dot i n [] hqd hc trivial ?_
                  refine SMatch.nil (i + 1) ?_
                  intro j hj1 hj2
                  exact absurd hj2 (by omega)
                · by_cases hps : i = pat.length - 2 ∧
                      pat.get? (i + 1) = some Quant.star
                  · exfalso
                    apply hnf
                    apply hctx [n] (List.cons_ne_nil _ _) rfl
                    refine SMatch.dot i n [] hqd hc trivial ?_
                    refine SMatch.nil (i + 1) ?_
                    intro j hj1 hj2
                    have hj : j = i + 1 := by omega
                    rw [hj]
                    exact hps.2
                  · rw [findMatches_dot_children g pat cands fuel n i cache
                      hlook hqd hc hlast hps]
                    have hch : ∀ c ∈ g.children n, CtxOK g pat cands c (i + 1) := by
                      intro c hcmem t htne hthead htm
                      apply hctx (n :: t) (List.cons_ne_nil _ _) rfl
                      refine SMatch.dot i n t hqd hc ?_ htm
                      cases t with
                      | nil => exact absurd rfl htne
                      | cons m rest =>
                          have hmc : m = c := by simpa using hthead
                          rw [hmc]
                          exact hcmem
                    have hi1 : i + 1 < pat.length := by omega
                    have hf : ∀ c ∈ g.children n, ∀ cache2,
                        NmCache pat cands cache2 →
                        findMatches g pat cands fuel c (i + 1) cache2 =
                          Except.error PyErr.fuelOut ∨
                        (∃ cache3, findMatches g pat cands fuel c (i + 1) cache2 =
                            Except.ok (none, cache3) ∧ NmCache pat cands cache3) ∨
                        (∃ cache3, findMatches g pat cands fuel c (i + 1) cache2 =
                            Except.ok (some [PVal.vtup []], cache3) ∧
                          NmCache pat cands cache3 ∧
                          pat.get? (i + 1) = some Quant.star ∧
                          i + 1 = pat.length - 1 ∧ c ∉ cands (i + 1)) :=
                      fun c hcmem cache2 hc2 =>
                        ih c (i + 1) cache2 hi1 hc2 (hch c hcmem)
                    rcases childLoop_nomatch pat cands
                        (findMatches g pat cands fuel) (i + 1) (g.children n) hf
                        [] cache hcache with hcl |
                      ⟨acc2, cache2, hcl, hc2, hdisj⟩
                    · left
                      simp only [runChildren, hcl]
                    · rcases hdisj with rfl | ⟨hacc2, hqs, hlen1⟩
                      · right
                        left
                        refine ⟨insertCache cache2 (n, i) none, ?_,
                          NmCache_insert_none pat cands cache2 (n, i) hc2⟩
                        simp only [runChildren, hcl]
                        simp
                      · exfalso
                        exact hps ⟨by omega, hqs⟩
              · rw [findMatches_dot_fail g pat cands fuel n i cache hlook hqd hc]
                exact Or.inr (Or.inl ⟨insertCache cache (n, i) none, rfl,
                  NmCache_insert_none pat cands cache (n, i) hcache⟩)
          | star =>
              have hqs : pat.get? i = some Quant.star := by rw [hq, hq2]
              by_cases hskip : i < pat.length - 1 ∧ n ∈ cands (i + 1)
              · rw [findMatches_star_skip g pat cands fuel n i cache
                  hlook hqs hskip]
                have hctx1 : CtxOK g pat cands n (i + 1) :=
                  fun t ht hh hm => hctx t ht hh (SMatch.starZero i t hqs hm)
                have hi1 : i + 1 < pat.length := by omega
                rcases ih n (i + 1) cache hi1 hcache hctx1 with h | h |
                  ⟨cache2, heq, hc2, hq3, hlen3, hnc3⟩
                · exact Or.inl h
                · exact Or.inr (Or.inl h)
                · exact absurd hskip.2 hnc3
              · by_cases hc : n ∈ cands i
                · by_cases hlast : i = pat.length - 1
                  · exfalso
                    apply hnf
                    apply hctx [n] (List.cons_ne_nil _ _) rfl
                    refine SMatch.starOne i n [] hqs hc trivial ?_
                    refine SMatch.nil i ?_
                    intro j hj1 hj2
                    have hj : j = i := by omega
                    rw [hj]
                    exact hqs
                  · have hnll : ¬(i = pat.length - 1 ∧ g.children n = []) :=
                      fun hx => hlast hx.1
                    rw [findMatches_star_children g pat cands fuel n i cache
                      hlook hqs hskip hc hnll]
                    have hch : ∀ c ∈ g.children n, CtxOK g pat cands c i := by
                      intro c hcmem t htne hthead htm
                      apply hctx (n :: t) (List.cons_ne_nil _ _) rfl
                      refine SMatch.starOne i n t hqs hc ?_ htm
                      cases t with
                      | nil => exact absurd rfl htne
                      | cons m rest =>
                          have hmc : m = c := by simpa using hthead
                          rw [hmc]
                          exact hcmem
                    have hf : ∀ c ∈ g.children n, ∀ cache2,
                        NmCache pat cands cache2 →
                        findMatches g pat cands fuel c i cache2 =
                          Except.error PyErr.fuelOut ∨
                        (∃ cache3, findMatches g pat cands fuel c i cache2 =
                            Except.ok (none, cache3) ∧ NmCache pat cands cache3) ∨
                        (∃ cache3, findMatches g pat cands fuel c i cache2 =
                            Except.ok (some [PVal.vtup []], cache3) ∧
                          NmCache pat cands cache3 ∧
                          pat.get? i = some Quant.star ∧
                          i = pat.length - 1 ∧ c ∉ cands i) :=
                      fun c hcmem cache2 hc2 =>
                        ih c i cache2 hi hc2 (hch c hcmem)
                    rcases childLoop_nomatch pat cands
                        (findMatches g pat cands fuel) i (g.children n) hf
                        [] cache hcache with hcl |
                      ⟨acc2, cache2, hcl, hc2, hdisj⟩
                    · left
                      simp only [runChildren, hcl]
                    · rcases hdisj with rfl | ⟨hacc2, hqs2, hlen1⟩
                      · right
                        left
                        refine ⟨insertCache cache2 (n, i) none, ?_,
                          NmCache_insert_none pat cands cache2 (n, i) hc2⟩
                        simp only [runChildren, hcl]
                        simp
                      · exact absurd hlen1 hlast
                · by_cases hlt : i < pat.length - 1
                  · rw [findMatches_star_fail_mid g pat cands fuel n i cache
                      hlook hqs hskip hc hlt]
                    exact Or.inr (Or.inl ⟨insertCache cache (n, i) none, rfl,
                      NmCache_insert_none pat cands cache (n, i) hcache⟩)
                  · rw [findMatches_star_fail_last g pat cands fuel n i cache
                      hlook hqs hskip hc hlt]
                    have hlast : i = pat.length - 1 := by omega
                    exact Or.inr (Or.inr
                      ⟨insertCache cache (n, i) (some [PVal.vtup []]), rfl,
                        NmCache_insert_eop pat cands cache n i hcache hqs hlast hc,
                        hqs, hlast, hc⟩)

/-- Inserting a good entry preserves cache goodness. -/
theorem GoodCache_insert (g : HGraph) (cache : PathCache) (k : Nat × Nat)
    (v : SearchRes) (hc : GoodCache g cache) (hv : GoodRes g v) :
    GoodCache g (insertCache cache k v) := by
  intro k2 v2 hmem
  rcases List.mem_cons.mp hmem with heq | hmem2
  · cases heq
    exact hv
  · exact hc k2 v2 hmem2

/-- Tuples extracted by `pyTuples` from a good result list are node
subsets of the graph. -/
theorem pyTuples_good (g : HGraph) :
    ∀ subpaths : List PVal, (∀ pv ∈ subpaths, NodesSub g (pvNodes pv)) →
      ∀ ts, pyTuples subpaths = Except.ok ts → ∀ t ∈ ts, NodesSub g t := by
  intro subpaths
  induction subpaths with
  | nil =>
      intro _ ts h
      cases h
      intro t ht
      exact absurd ht (List.not_mem_nil t)
  | cons pv rest ih =>
      intro hgood ts h
      cases pv with
      | vnode k => exact Except.noConfusion h
      | vtup t0 =>
          simp only [pyTuples, pyTuple] at h
          cases hr : pyTuples rest with
          | error e =>
              rw [hr] at h
              exact Except.noConfusion h
          | ok ts2 =>
              rw [hr] at h
              cases h
              intro t ht
              rcases List.mem_cons.mp ht with rfl | ht2
              · exact hgood (PVal.vtup t) (List.mem_cons_self _ _)
              · exact ih (fun pv2 h2 => hgood pv2 (List.mem_cons_of_mem _ h2))
                  ts2 hr t ht2

/-- Folding `addTup` only accumulates members of the two inputs. -/
theorem mem_foldl_addTup :
    ∀ (ts : List (List Nat)) (acc : List (List Nat)) (x : List Nat),
      x ∈ ts.foldl addTup acc → x ∈ acc ∨ x ∈ ts := by
  intro ts
  induction ts with
  | nil =>
      intro acc x h
      exact Or.inl h
  | cons t ts ih =>
      intro acc x h
      rcases ih (addTup acc t) x h with h2 | h2
      · rcases (mem_addTup acc t x).mp h2 with h3 | rfl
        · exact Or.inl h3
        · exact Or.inr (List.mem_cons_self _ _)
      · exact Or.inr (List.mem_cons_of_mem _ h2)

/-- Child-loop lemma for node goodness: the accumulated tuples stay
within the graph's nodes, and the cache stays good. -/
theorem childLoop_good (g : HGraph)
    (f : Nat → Nat → PathCache → Except PyErr (SearchRes × PathCache))
    (ni : Nat) :
    ∀ cs : List Nat,
      (∀ c ∈ cs, ∀ cache, GoodCache g cache → ∀ r c2,
        f c ni cache = Except.ok (r, c2) → GoodCache g c2 ∧ GoodRes g r) →
      ∀ acc cache, (∀ t ∈ acc, NodesSub g t) → GoodCache g cache →
        ∀ cps cache2, childLoop f cs ni acc cache = Except.ok (cps, cache2) →
          GoodCache g cache2 ∧ ∀ t ∈ cps, NodesSub g t := by
  intro cs
  induction cs with
  | nil =>
      intro _ acc cache hacc hcache cps cache2 h
      cases h
      exact ⟨hcache, hacc⟩
  | cons c cs ih =>
      intro hf acc cache hacc hcache cps cache2 h
      have hfr : ∀ c2 ∈ cs, ∀ cache3, GoodCache g cache3 → ∀ r c4,
          f c2 ni cache3 = Except.ok (r, c4) → GoodCache g c4 ∧ GoodRes g r :=
        fun c2 hc2 => hf c2 (List.mem_cons_of_mem _ hc2)
      simp only [childLoop] at h
      split at h
      · exact Except.noConfusion h
      · rename_i cachea heq
        have hgood := hf c (List.mem_cons_self _ _) cache hcache none cachea heq
        exact ih hfr acc cachea hacc hgood.1 cps cache2 h
      · rename_i subpaths cachea heq
        have hgood := hf c (List.mem_cons_self _ _) cache hcache
          (some subpaths) cachea heq
        split at h
        · exact Except.noConfusion h
        · rename_i ts hts
          have hts_good := pyTuples_good g subpaths hgood.2 ts hts
          have hacc2 : ∀ t ∈ ts.foldl addTup acc, NodesSub g t := by
            intro t ht
            rcases mem_foldl_addTup ts acc t ht with h2 | h2
            · exact hacc t h2
            · exact hts_good t h2
          exact ih hfr (ts.foldl addTup acc) cachea hacc2 hgood.1
            cps cache2 h

/-- The result of `runChildren` when it succeeds: the returned values
prepend the current node to good tuples, and the cache stays good. -/
theorem runChildren_good (g : HGraph)
    (f : Nat → Nat → PathCache → Except PyErr (SearchRes × PathCache))
    (n i nexti : Nat) (cache : PathCache)
    (hn : n ∈ g.nodes)
    (hf : ∀ c ∈ g.children n, ∀ cache3, GoodCache g cache3 → ∀ r c4,
      f c nexti cache3 = Except.ok (r, c4) → GoodCache g c4 ∧ GoodRes g r)
    (hcache : GoodCache g cache) :
    ∀ res cache2, runChildren g f n i nexti cache = Except.ok (res, cache2) →
      GoodCache g cache2 ∧ GoodRes g res := by
  intro res cache2 h
  simp only [runChildren] at h
  split at h
  · exact Except.noConfusion h
  · rename_i cps cachea hcl
    have hgood := childLoop_good g f nexti (g.children n) hf [] cache
      (fun t ht => absurd ht (List.not_mem_nil t)) hcache cps cachea hcl
    split at h
    · cases h
      exact ⟨GoodCache_insert g cachea (n, i) none hgood.1 trivial, trivial⟩
    · cases h
      have hvalid : GoodRes g (some (cps.map (fun p => PVal.vtup (n :: p)))) := by
        intro pv hpv
        rcases List.mem_map.mp hpv with ⟨p, hp, rfl⟩
        intro x hx
        rcases List.mem_cons.mp hx with rfl | hx2
        · exact hn
        · exact hgood.2 p hp x hx2
      exact ⟨GoodCache_insert g cachea (n, i) _ hgood.1 hvalid, hvalid⟩

/-- Node goodness of the memoized search: starting from a graph node and
a good cache, every successful search returns values whose nodes are all
nodes of the graph, and leaves the cache good. -/
theorem fm_good (g : HGraph) (pat : List Quant) (cands : Nat → List Nat)
    (hclosed : ∀ n ∈ g.nodes, ∀ c ∈ g.children n, c ∈ g.nodes) :
    ∀ fuel n i cache, n ∈ g.nodes → GoodCache g cache →
      ∀ res cache2, findMatches g pat cands fuel n i cache = Except.ok (res, cache2) →
        GoodCache g cache2 ∧ GoodRes g res := by
  intro fuel
  induction fuel with
  | zero =>
      intro n i cache _ _ res cache2 h
      exact Except.noConfusion h
  | succ fuel ih =>
      intro n i cache hn hcache res cache2 h
      have hchf : ∀ ni2, ∀ c ∈ g.children n, ∀ cache3, GoodCache g cache3 →
          ∀ r c4, findMatches g pat cands fuel c ni2 cache3 = Except.ok (r, c4) →
            GoodCache g c4 ∧ GoodRes g r :=
        fun ni2 c hc cache3 hc3 r c4 hr =>
          ih c ni2 cache3 (hclosed n hn c hc) hc3 r c4 hr
      cases hlook : lookupCache cache (n, i) with
      | some v =>
          rw [findMatches_hit g pat cands fuel n i cache v hlook] at h
          injection h with h1
          injection h1 with hres hcach
          subst hres
          subst hcach
          exact ⟨hcache, hcache (n, i) v (lookupCache_mem cache (n, i) v hlook)⟩
      | none =>
          cases hq : pat.get? i with
          | none =>
              simp only [findMatches, hlook, hq] at h
              exact Except.noConfusion h
          | some q =>
              cases q with
              | dot =>
                  by_cases hc : n ∈ cands i
                  · by_cases hlast : i = pat.length - 1
                    · rw [findMatches_dot_last g pat cands fuel n i cache
                        hlook hq hc hlast] at h
                      cases h
                      have hres : GoodRes g (some [PVal.vtup [n]]) := by
                        intro pv hpv
                        rcases List.mem_cons.mp hpv with rfl | hpv2
                        · intro x hx
                          rcases List.mem_cons.mp hx with rfl | hx2
                          · exact hn
                          · exact absurd hx2 (List.not_mem_nil x)
                        · exact absurd hpv2 (List.not_mem_nil pv)
                      have hent : GoodRes g (some [PVal.vnode n]) := by
                        intro pv hpv
                        rcases List.mem_cons.mp hpv with rfl | hpv2
                        · intro x hx
                          rcases List.mem_cons.mp hx with rfl | hx2
                          · exact hn
                          · exact absurd hx2 (List.not_mem_nil x)
                        · exact absurd hpv2 (List.not_mem_nil pv)
                      exact ⟨GoodCache_insert g cache (n, i) _ hcache hent, hres⟩
                    · by_cases hps : i = pat.length - 2 ∧
                          pat.get? (i + 1) = some Quant.star
                      · rw [findMatches_dot_prestar g pat cands fuel n i cache
                          hlook hq hc hlast hps] at h
                        cases h
                        have hres : GoodRes g (some [PVal.vtup [n]]) := by
                          intro pv hpv
                          rcases List.mem_cons.mp hpv with rfl | hpv2
                          · intro x hx
                            rcases List.mem_cons.mp hx with rfl | hx2
                            · exact hn
                            · exact absurd hx2 (List.not_mem_nil x)
                          · exact absurd hpv2 (List.not_mem_nil pv)
                        have hent : GoodRes g (some [PVal.vnode n]) := by
                          intro pv hpv
                          rcases List.mem_cons.mp hpv with rfl | hpv2
                          · intro x hx
                            rcases List.mem_cons.mp hx with rfl | hx2
                            · exact hn
                            · exact absurd hx2 (List.not_mem_nil x)
                          · exact absurd hpv2 (List.not_mem_nil pv)
                        exact ⟨GoodCache_insert g cache (n, i) _ hcache hent, hres⟩
                      · rw [findMatches_dot_children g pat cands fuel n i cache
                          hlook hq hc hlast hps] at h
                        exact runChildren_good g (findMatches g pat cands fuel)
                          n i (i + 1) cache hn (hchf (i + 1)) hcache res cache2 h
                  · rw [findMatches_dot_fail g pat cands fuel n i cache
                      hlook hq hc] at h
                    cases h
                    exact ⟨GoodCache_insert g cache (n, i) none hcache trivial,
                      trivial⟩
              | star =>
                  by_cases hskip : i < pat.length - 1 ∧ n ∈ cands (i + 1)
                  · rw [findMatches_star_skip g pat cands fuel n i cache
                      hlook hq hskip] at h
                    exact ih n (i + 1) cache hn hcache res cache2 h
                  · by_cases hc : n ∈ cands i
                    · by_cases hll : i = pat.length - 1 ∧ g.children n = []
                      · rw [findMatches_star_leaf g pat cands fuel n i cache
                          hlook hq hskip hc hll] at h
                        cases h
                        refine ⟨hcache, ?_⟩
                        intro pv hpv
                        rcases List.mem_cons.mp hpv with rfl | hpv2
                        · intro x hx
                          rcases List.mem_cons.mp hx with rfl | hx2
                          · exact hn
                          · exact absurd hx2 (List.not_mem_nil x)
                        · exact absurd hpv2 (List.not_mem_nil pv)
                      · rw [findMatches_star_children g pat cands fuel n i cache
                          hlook hq hskip hc hll] at h
                        exact runChildren_good g (findMatches g pat cands fuel)
                          n i i cache hn (hchf i) hcache res cache2 h
                    · by_cases hlt : i < pat.length - 1
                      · rw [findMatches_star_fail_mid g pat cands fuel n i cache
                          hlook hq hskip hc hlt] at h
                        cases h
                        exact ⟨GoodCache_insert g cache (n, i) none hcache trivial,
                          trivial⟩
                      · rw [findMatches_star_fail_last g pat cands fuel n i cache
                          hlook hq hskip hc hlt] at h
                        cases h
                        have hres : GoodRes g (some [PVal.vtup []]) := by
                          intro pv hpv
                          rcases List.mem_cons.mp hpv with rfl | hpv2
                          · intro x hx
                            exact absurd hx (List.not_mem_nil x)
                          · exact absurd hpv2 (List.not_mem_nil pv)
                        exact ⟨GoodCache_insert g cache (n, i) _ hcache hres, hres⟩

/-- Adding the nodes of one tuple preserves duplicate-freedom and keeps
every element inside the union of the inputs. -/
theorem addNodesOf_good (g : HGraph) :
    ∀ (t mset : List Nat), mset.Nodup → NodesSub g mset → NodesSub g t →
      (addNodesOf mset t).Nodup ∧ NodesSub g (addNodesOf mset t) := by
  intro t
  induction t with
  | nil =>
      intro mset hnd hsub _
      exact ⟨hnd, hsub⟩
  | cons x xs ih =>
      intro mset hnd hsub ht
      have hx : x ∈ g.nodes := ht x (List.mem_cons_self _ _)
      have hxs : NodesSub g xs := fun y hy => ht y (List.mem_cons_of_mem _ hy)
      have hstep : addNodesOf mset (x :: xs) =
          addNodesOf (if x ∈ mset then mset else mset ++ [x]) xs := rfl
      rw [hstep]
      by_cases hmem : x ∈ mset
      · rw [if_pos hmem]
        exact ih mset hnd hsub hxs
      · rw [if_neg hmem]
        have hnd2 : (mset ++ [x]).Nodup := by
          rw [List.nodup_append]
          refine ⟨hnd, List.nodup_singleton x, ?_⟩
          intro a ha hax
          rcases List.mem_singleton.mp hax with rfl
          exact hmem ha
        have hsub2 : NodesSub g (mset ++ [x]) := by
          intro y hy
          rcases List.mem_append.mp hy with hy2 | hy2
          · exact hsub y hy2
          · rcases List.mem_singleton.mp hy2 with rfl
            exact hx
        exact ih (mset ++ [x]) hnd2 hsub2 hxs

/-- Collecting the nodes of a good result list preserves duplicate-freedom
and node membership. -/
theorem collectMatches_good (g : HGraph) :
    ∀ (l : List PVal) (mset : List Nat), mset.Nodup → NodesSub g mset →
      (∀ pv ∈ l, NodesSub g (pvNodes pv)) →
      ∀ mset2, collectMatches mset l = Except.ok mset2 →
        mset2.Nodup ∧ NodesSub g mset2 := by
  intro l
  induction l with
  | nil =>
      intro mset hnd hsub _ mset2 h
      cases h
      exact ⟨hnd, hsub⟩
  | cons pv rest ih =>
      intro mset hnd hsub hl mset2 h
      cases pv with
      | vnode k => exact Except.noConfusion h
      | vtup t =>
          have ht : NodesSub g t := hl (PVal.vtup t) (List.mem_cons_self _ _)
          have hadd := addNodesOf_good g t mset hnd hsub ht
          exact ih (addNodesOf mset t) hadd.1 hadd.2
            (fun pv2 h2 => hl pv2 (List.mem_cons_of_mem _ h2)) mset2 h

/-- The starting-candidate sweep preserves duplicate-freedom and node
membership of the growing result set. -/
theorem applyImplLoop_good (g : HGraph) (pat : List Quant)
    (cands : Nat → List Nat) (fuel : Nat)
    (hclosed : ∀ n ∈ g.nodes, ∀ c ∈ g.children n, c ∈ g.nodes) :
    ∀ starts mset cache, (∀ s ∈ starts, s ∈ g.nodes) → mset.Nodup →
      NodesSub g mset → GoodCache g cache →
      ∀ r cache2, applyImplLoop g pat cands fuel starts mset cache =
          Except.ok (r, cache2) →
        r.Nodup ∧ NodesSub g r := by
  intro starts
  induction starts with
  | nil =>
      intro mset cache _ hnd hsub _ r cache2 h
      cases h
      exact ⟨hnd, hsub⟩
  | cons s ss ih =>
      intro mset cache hstarts hnd hsub hcache r cache2 h
      have hs : s ∈ g.nodes := hstarts s (List.mem_cons_self _ _)
      have hss : ∀ s2 ∈ ss, s2 ∈ g.nodes :=
        fun s2 h2 => hstarts s2 (List.mem_cons_of_mem _ h2)
      simp only [applyImplLoop] at h
      split at h
      · exact Except.noConfusion h
      · rename_i cachea heq
        have hgood := fm_good g pat cands hclosed fuel s 0 cache hs hcache
          none cachea heq
        exact ih mset cachea hss hnd hsub hgood.1 r cache2 h
      · rename_i l cachea heq
        have hgood := fm_good g pat cands hclosed fuel s 0 cache hs hcache
          (some l) cachea heq
        split at h
        · exact Except.noConfusion h
        · rename_i mset2 hcm
          have hm2 := collectMatches_good g l mset hnd hsub hgood.2 mset2 hcm
          exact ih mset2 cachea hss hm2.1 hm2.2 hgood.1 r cache2 h

/-- The starting-candidate sweep of a no-match evaluation leaves the
result set untouched (fuel permitting). -/
theorem applyImplLoop_nomatch (g : HGraph) (pat : List Quant)
    (cands : Nat → List Nat) (hnf : ¬ FullMatch g pat cands) (fuel : Nat)
    (hlen : 0 < pat.length) :
    ∀ starts mset cache, (∀ s ∈ starts, s ∈ cands 0) →
      NmCache pat cands cache →
      applyImplLoop g pat cands fuel starts mset cache =
          Except.error PyErr.fuelOut ∨
      (∃ cache2, applyImplLoop g pat cands fuel starts mset cache =
          Except.ok (mset, cache2)) := by
  intro starts
  induction starts with
  | nil =>
      intro mset cache _ _
      exact Or.inr ⟨cache, rfl⟩
  | cons s ss ih =>
      intro mset cache hstarts hcache
      have hs : s ∈ cands 0 := hstarts s (List.mem_cons_self _ _)
      have hss : ∀ s2 ∈ ss, s2 ∈ cands 0 :=
        fun s2 h2 => hstarts s2 (List.mem_cons_of_mem _ h2)
      have hctx : CtxOK g pat cands s 0 := fun t ht _ hm => ⟨t, ht, hm⟩
      rcases fm_nomatch g pat cands hnf fuel s 0 cache hlen hcache hctx with
        hstep | ⟨cache2, hstep, hc2⟩ | ⟨cache2, hstep, hc2, _, _, hnc⟩
      · left
        simp only [applyImplLoop, hstep]
      · rcases ih mset cache2 hss hc2 with hrec | ⟨cache3, hrec⟩
        · left
          simp only [applyImplLoop, hstep]
          exact hrec
        · right
          refine ⟨cache3, ?_⟩
          simp only [applyImplLoop, hstep]
          exact hrec
      · exact absurd hs hnc

/-- Length of the candidate list. -/
theorem candidatesOfTable_length (len : Nat) (table : List (Nat × List Bool)) :
    (candidatesOfTable len table).length = len := by
  simp [candidatesOfTable]

/-- Members of any candidate set come from the table's keys. -/
theorem candidatesOfTable_sub (len : Nat) (table : List (Nat × List Bool))
    (i x : Nat) (hx : x ∈ (candidatesOfTable len table).getD i []) :
    x ∈ table.map Prod.fst := by
  by_cases hi : i < len
  · rw [candidatesOfTable_getD len table i hi] at hx
    rcases List.mem_map.mp hx with ⟨row, hrow, rfl⟩
    exact List.mem_map.mpr ⟨row, (List.mem_filter.mp hrow).1, rfl⟩
  · have hlen : (candidatesOfTable len table).length ≤ i := by
      rw [candidatesOfTable_length]
      omega
    rw [List.getD_eq_getElem?_getD, List.getElem?_eq_none hlen] at hx
    exact absurd hx (List.not_mem_nil x)

/-- Facts about a successful `_init`: the candidate list has one entry
per pattern position, the pattern is nonempty, and every candidate node
comes from the attribute table's index. -/
theorem initEngine_ok (pats : List (Quant × Pred)) (df : DFrame)
    (mode : String) (cands : List (List Nat))
    (h : initEngine pats df mode = Except.ok cands) :
    cands.length = pats.length ∧ pats ≠ [] ∧
      ∀ i x, x ∈ cands.getD i [] → x ∈ df.nodes := by
  unfold initEngine at h
  split at h
  · exact Except.noConfusion h
  · split at h
    · exact Except.noConfusion h
    · rename_i hne
      have hpne : pats ≠ [] := by
        intro hnil
        subst hnil
        exact hne rfl
      cases df with
      | single rows =>
          simp only at h
          injection h with h2
          subst h2
          refine ⟨candidatesOfTable_length _ _, hpne, ?_⟩
          intro i x hx
          have := candidatesOfTable_sub _ _ i x hx
          rcases List.mem_map.mp this with ⟨row, hrow, rfl⟩
          rcases List.mem_map.mp hrow with ⟨n2, hn2, rfl⟩
          exact hn2
      | multi rows =>
          simp only at h
          split at h
          · exact Except.noConfusion h
          · injection h with h2
            subst h2
            refine ⟨candidatesOfTable_length _ _, hpne, ?_⟩
            intro i x hx
            have := candidatesOfTable_sub _ _ i x hx
            rcases List.mem_map.mp this with ⟨row, hrow, rfl⟩
            rcases List.mem_map.mp hrow with ⟨k, hk, rfl⟩
            exact List.mem_dedup.mp ((mem_sortByKey _ _ _).mp hk)

/-- Claim C4: for every base pattern, graph and associated attribute
table (attribute index nodes belong to the graph, children of graph
nodes stay in the graph), a successful `apply` returns a duplicate-free
collection of graph nodes; and when no downward path in the graph
satisfies the pattern, `apply` returns the empty collection (the only
other possible outcome being exhaustion of the recursion-depth fuel,
which has no Python counterpart) rather than raising an error. -/
theorem apply_result_set (g : HGraph) (df : DFrame) (p : List (Quant × Pred))
    (mode : String) (fuel : Nat) (st : EngineState)
    (hclosed : ∀ n ∈ g.nodes, ∀ c ∈ g.children n, c ∈ g.nodes)
    (hdf : ∀ x ∈ df.nodes, x ∈ g.nodes) :
    (∀ r st2, applyQ g df fuel st (QueryT.pat p) mode = Except.ok (r, st2) →
      r.Nodup ∧ ∀ x ∈ r, x ∈ g.nodes) ∧
    (∀ cands, initEngine p df mode = Except.ok cands →
      ¬ FullMatch g (p.map Prod.fst) (fun i => cands.getD i []) →
      (∀ r st2, applyQ g df fuel st (QueryT.pat p) mode = Except.ok (r, st2) →
        r = []) ∧
      (∀ e, applyQ g df fuel st (QueryT.pat p) mode = Except.error e →
        e = PyErr.fuelOut)) := by
  cases fuel with
  | zero =>
      constructor
      · intro r st2 h
        exact Except.noConfusion h
      · intro cands _ _
        constructor
        · intro r st2 h
          exact Except.noConfusion h
        · intro e h
          injection h with he
          exact he.symm
  | succ fuel =>
      constructor
      · intro r st2 h
        simp only [applyQ] at h
        split at h
        · exact Except.noConfusion h
        · rename_i cands hinit
          split at h
          · exact Except.noConfusion h
          · rename_i r2 cache himp
            injection h with h1
            injection h1 with hr hst
            subst hr
            unfold applyImpl at himp
            rcases initEngine_ok p df mode cands hinit with ⟨hlen, hpne, hsub⟩
            cases cands with
            | nil => exact Except.noConfusion himp
            | cons c0 rest =>
                have hstarts : ∀ s ∈ sortByKey g.key c0, s ∈ g.nodes := by
                  intro s hsmem
                  have hs0 : s ∈ c0 := (mem_sortByKey g.key c0 s).mp hsmem
                  exact hdf s (hsub 0 s hs0)
                exact applyImplLoop_good g (p.map Prod.fst)
                  (fun i => (c0 :: rest).getD i []) fuel hclosed
                  (sortByKey g.key c0) [] [] hstarts List.nodup_nil
                  (fun x hx => absurd hx (List.not_mem_nil x))
                  (fun k v hkv => absurd hkv (List.not_mem_nil (k, v)))
                  r2 cache himp
      · intro cands hinit hnf
        rcases initEngine_ok p df mode cands hinit with ⟨hlen, hpne, hsub⟩
        have hplen : 0 < (p.map Prod.fst).length := by
          rw [List.length_map]
          cases p with
          | nil => exact absurd rfl hpne
          | cons a as => simp
        constructor
        · intro r st2 h
          simp only [applyQ] at h
          split at h
          · exact Except.noConfusion h
          · rename_i cands2 hinit2
            have hceq : cands2 = cands := by
              have := hinit.symm.trans hinit2
              injection this with h2
              exact h2.symm
            subst hceq
            split at h
            · exact Except.noConfusion h
            · rename_i r2 cache himp
              injection h with h1
              injection h1 with hr hst
              subst hr
              unfold applyImpl at himp
              cases cands2 with
              | nil =>
                  exfalso
                  rw [List.length_nil] at hlen
                  cases p with
                  | nil => exact hpne rfl
                  | cons a as => exact absurd hlen.symm (by simp)
              | cons c0 rest =>
                  have hstarts : ∀ s ∈ sortByKey g.key c0,
                      s ∈ (fun i => ((c0 :: rest : List (List Nat))).getD i []) 0 :=
                    fun s hsmem => (mem_sortByKey g.key c0 s).mp hsmem
                  have himp2 : applyImplLoop g (p.map Prod.fst)
                      (fun i => (c0 :: rest).getD i []) fuel
                      (sortByKey g.key c0) [] [] = Except.ok (r2, cache) := himp
                  rcases applyImplLoop_nomatch g (p.map Prod.fst)
                      (fun i => (c0 :: rest).getD i []) hnf fuel hplen
                      (sortByKey g.key c0) [] []
                      hstarts
                      (fun k v hkv => absurd hkv (List.not_mem_nil (k, v)))
                    with hno | ⟨cache2, hno⟩
                  · exact Except.noConfusion (himp2.symm.trans hno)
                  · have heq := hno.symm.trans himp2
                    injection heq with h2
                    injection h2 with hr2 _
                    exact hr2.symm
        · intro e h
          simp only [applyQ] at h
          split at h
          · rename_i e2 hinit2
            rw [hinit] at hinit2
            exact Except.noConfusion hinit2
          · rename_i cands2 hinit2
            have hceq : cands2 = cands := by
              have := hinit.symm.trans hinit2
              injection this with h2
              exact h2.symm
            subst hceq
            split at h
            · rename_i e2 himp
              injection h with he
              subst he
              unfold applyImpl at himp
              cases cands2 with
              | nil =>
                  exfalso
                  rw [List.length_nil] at hlen
                  cases p with
                  | nil => exact hpne rfl
                  | cons a as => exact absurd hlen.symm (by simp)
              | cons c0 rest =>
                  have hstarts : ∀ s ∈ sortByKey g.key c0,
                      s ∈ (fun i => ((c0 :: rest : List (List Nat))).getD i []) 0 :=
                    fun s hsmem => (mem_sortByKey g.key c0 s).mp hsmem
                  have himp2 : applyImplLoop g (p.map Prod.fst)
                      (fun i => (c0 :: rest).getD i []) fuel
                      (sortByKey g.key c0) [] [] = Except.error e2 := himp
                  rcases applyImplLoop_nomatch g (p.map Prod.fst)
                      (fun i => (c0 :: rest).getD i []) hnf fuel hplen
                      (sortByKey g.key c0) [] []
                      hstarts
                      (fun k v hkv => absurd hkv (List.not_mem_nil (k, v)))
                    with hno | ⟨cache2, hno⟩
                  · have heq := hno.symm.trans himp2
                    injection heq with he2
                    exact he2.symm
                  · exact Except.noConfusion (hno.symm.trans himp2)
            · exact Except.noConfusion h

/-- Claim C4 witness: a concrete pattern that matches nowhere, applied to
a concrete one-node graph with its attribute index, returns the empty
duplicate-free node collection. -/
theorem apply_result_set_witness :
    (applyQ wG (DFrame.single [0]) 5 (EngineState.mk [] [])
        (QueryT.pat [(Quant.dot, wFalse)]) "off" =
      Except.ok ([], EngineState.mk [[]] [])) ∧
    (([] : List Nat).Nodup ∧ ∀ x ∈ ([] : List Nat), x ∈ wG.nodes) ∧
    (∀ r st2, applyQ wG (DFrame.single [0]) 5 (EngineState.mk [] [])
        (QueryT.pat [(Quant.dot, wFalse)]) "off" = Except.ok (r, st2) →
      r = []) := by
  have hclosed : ∀ n ∈ wG.nodes, ∀ c ∈ wG.children n, c ∈ wG.nodes := by
    intro n _ c hc
    exact absurd hc (List.not_mem_nil c)
  have hdf : ∀ x ∈ (DFrame.single [0]).nodes, x ∈ wG.nodes := fun x hx => hx
  have h := apply_result_set wG (DFrame.single [0]) [(Quant.dot, wFalse)]
    "off" 5 (EngineState.mk [] []) hclosed hdf
  have hcand : ∀ j, (([[]] : List (List Nat)).getD j []) = [] := by
    intro j
    cases j with
    | zero => rfl
    | succ j2 => cases j2 <;> rfl
  have hnf : ¬ FullMatch wG ([(Quant.dot, wFalse)].map Prod.fst)
      (fun i => ([[]] : List (List Nat)).getD i []) := by
    rintro ⟨chain, hne, hm⟩
    cases chain with
    | nil => exact hne rfl
    | cons n rest =>
        rcases smatch_head_mem wG ([(Quant.dot, wFalse)].map Prod.fst)
          (fun i => ([[]] : List (List Nat)).getD i []) 0 (n :: rest) hm
          n rest rfl with ⟨j, hj⟩
        rw [hcand j] at hj
        exact absurd hj (List.not_mem_nil n)
  refine ⟨by rfl, ?_, ?_⟩
  · exact h.1 [] (EngineState.mk [[]] []) (by rfl)
  · exact (h.2 [[]] (by rfl) hnf).1
